import Mathlib

/-!
Verification development for the activedispatch-server normalization and
geocoding pipeline.  JavaScript source functions are shallowly embedded as
Lean functions over `List Char` / `String`, with JSON-ish values as
the inductive `JSVal`; JS numbers are modelled as `Option Rat` (with `none`
standing for NaN and the non-finite values, so `Number.isFinite x` becomes
`x.isSome`).  Regular-expression operations are embedded through a small
backtracking matcher (`RE`, `reMatch`) whose patterns transcribe the source
regex literals.  ASCII (un)casing uses core `Char.toLower`/`Char.toUpper`,
which match the JS functions on the character data the feeds carry.
-/

set_option maxRecDepth 4000

/-- whitespace per ECMAScript `\s` (WhiteSpace + LineTerminator productions). -/
def isJsWs (c : Char) : Bool :=
  decide (c.toNat = 0x20 ∨ c.toNat = 0x9 ∨ c.toNat = 0xa ∨ c.toNat = 0xd ∨
    c.toNat = 0xb ∨ c.toNat = 0xc ∨ c.toNat = 0xa0 ∨ c.toNat = 0x1680 ∨
    (0x2000 ≤ c.toNat ∧ c.toNat ≤ 0x200a) ∨
    c.toNat = 0x2028 ∨ c.toNat = 0x2029 ∨ c.toNat = 0x202f ∨
    c.toNat = 0x205f ∨ c.toNat = 0x3000 ∨ c.toNat = 0xfeff)

/-- Model of `.replace(/\s+/g, " ")` (collapse each maximal whitespace run to a
single space), written as a single pass with a flag recording whether the
previous character belonged to a whitespace run. -/
def collapseWsAux (inRun : Bool) : List Char → List Char
  | [] => []
  | c :: cs =>
    if isJsWs c then
      (if inRun then [] else [' ']) ++ collapseWsAux true cs
    else c :: collapseWsAux false cs

def collapseWs (l : List Char) : List Char := collapseWsAux false l

/-- Model of `String.prototype.trim` on char lists. -/
def jsTrim (l : List Char) : List Char := (l.dropWhile isJsWs).rdropWhile isJsWs

def lowerList (l : List Char) : List Char := l.map Char.toLower

/-- `normalizeAddress` from services/geocode.js:
`String(addr || "").trim().replace(/\s+/g, " ").toLowerCase()`. -/
def normalizeAddress (s : String) : String :=
  ⟨lowerList (collapseWs (jsTrim s.data))⟩

def headOk (l : List Char) : Prop := ∀ c ∈ l.head?, isJsWs c = false

def lastOk (l : List Char) : Prop := ∀ c ∈ l.getLast?, isJsWs c = false

/-- The output shape of `collapseWs`: every whitespace character is a single
space and no two adjacent characters are both whitespace. -/
def noWsRun : List Char → Prop
  | [] => True
  | c :: rest =>
    (isJsWs c = true → c = ' ' ∧ ∀ d ∈ rest.head?, isJsWs d = false) ∧ noWsRun rest

inductive RE where
  | eps : RE
  | one : (Char → Bool) → RE
  | many0 : (Char → Bool) → RE
  | many1 : (Char → Bool) → RE
  | reps : (Char → Bool) → Nat → Nat → RE
  | seq : RE → RE → RE
  | alt : RE → RE → RE
  | opt : RE → RE
  | wb : RE
  | bos : RE
  | eos : RE
  | grp : Nat → RE → RE

/-- JS `\w` = `[A-Za-z0-9_]`. -/
def isWordChar (c : Char) : Bool := c.isAlpha || c.isDigit || c = '_'

def prevWord (prev : Option Char) : Bool :=
  match prev with
  | some c => isWordChar c
  | none => false

def nextWord (s : List Char) : Bool :=
  match s with
  | c :: _ => isWordChar c
  | [] => false

/-- Greedy Kleene star over a character class, with backtracking via the
continuation `k`. -/
def reStar {α : Type} (p : Char → Bool) (prev : Option Char) (s : List Char)
    (caps : List (Nat × List Char))
    (k : Option Char → List Char → List (Nat × List Char) → Option α) : Option α :=
  match s with
  | [] => k prev [] caps
  | c :: cs =>
    if p c then
      match reStar p (some c) cs caps k with
      | some r => some r
      | none => k prev (c :: cs) caps
    else k prev (c :: cs) caps

/-- Greedy bounded repetition `p{lo,hi}` over a character class. -/
def reReps {α : Type} (p : Char → Bool) : Nat → Nat → Option Char → List Char →
    List (Nat × List Char) →
    (Option Char → List Char → List (Nat × List Char) → Option α) → Option α
  | lo, 0, prev, s, caps, k => if lo = 0 then k prev s caps else none
  | lo, hi + 1, prev, s, caps, k =>
    match s with
    | [] => if lo = 0 then k prev [] caps else none
    | c :: cs =>
      if p c then
        if lo = 0 then
          match reReps p 0 hi (some c) cs caps k with
          | some r => some r
          | none => k prev (c :: cs) caps
        else reReps p (lo - 1) hi (some c) cs caps k
      else if lo = 0 then k prev (c :: cs) caps else none

/-- Backtracking matcher.  `prev` is the character just before the current
position (`none` at the start of the subject), needed by `\b` and `^`;
`caps` accumulates numbered capture groups. -/
def reMatch {α : Type} : RE → Option Char → List Char → List (Nat × List Char) →
    (Option Char → List Char → List (Nat × List Char) → Option α) → Option α
  | .eps, prev, s, caps, k => k prev s caps
  | .one p, _, s, caps, k =>
    match s with
    | [] => none
    | c :: cs => if p c then k (some c) cs caps else none
  | .many0 p, prev, s, caps, k => reStar p prev s caps k
  | .many1 p, _, s, caps, k =>
    match s with
    | [] => none
    | c :: cs => if p c then reStar p (some c) cs caps k else none
  | .reps p lo hi, prev, s, caps, k => reReps p lo hi prev s caps k
  | .seq a b, prev, s, caps, k =>
    reMatch a prev s caps (fun p2 s2 c2 => reMatch b p2 s2 c2 k)
  | .alt a b, prev, s, caps, k =>
    match reMatch a prev s caps k with
    | some r => some r
    | none => reMatch b prev s caps k
  | .opt a, prev, s, caps, k =>
    match reMatch a prev s caps k with
    | some r => some r
    | none => k prev s caps
  | .wb, prev, s, caps, k =>
    if prevWord prev != nextWord s then k prev s caps else none
  | .bos, prev, s, caps, k => if prev.isNone then k prev s caps else none
  | .eos, prev, s, caps, k => if s.isEmpty then k prev s caps else none
  | .grp i a, prev, s, caps, k =>
    reMatch a prev s caps (fun p2 s2 c2 => k p2 s2 ((i, s.take (s.length - s2.length)) :: c2))

/-- Leftmost-match search: `(prefix, match, rest, captures)`. -/
def reFind (r : RE) : Option Char → List Char →
    Option (List Char × List Char × List Char × List (Nat × List Char))
  | prev, s =>
    match reMatch r prev s [] (fun _ s2 c2 => some (s2, c2)) with
    | some (s2, c2) => some ([], s.take (s.length - s2.length), s2, c2)
    | none =>
      match s with
      | [] => none
      | c :: cs =>
        match reFind r (some c) cs with
        | some (pre, m, rest, c2) => some (c :: pre, m, rest, c2)
        | none => none

def reTest (r : RE) (s : List Char) : Bool := (reFind r none s).isSome

def replaceFirst (r : RE) (rep : List Char) (s : List Char) : List Char :=
  match reFind r none s with
  | some (pre, _, rest, _) => pre ++ rep ++ rest
  | none => s

def replaceAllFuel (r : RE) (rep : List Char) : Nat → Option Char → List Char → List Char
  | 0, _, s => s
  | fuel + 1, prev, s =>
    match reFind r prev s with
    | none => s
    | some (pre, m, rest, _) =>
      match m with
      | [] =>
        match rest with
        | [] => pre ++ rep
        | c :: cs => pre ++ rep ++ c :: replaceAllFuel r rep fuel (some c) cs
      | _ => pre ++ rep ++ replaceAllFuel r rep fuel m.getLast? rest

def replaceAll (r : RE) (rep : List Char) (s : List Char) : List Char :=
  replaceAllFuel r rep (s.length + 1) none s

-- pattern builders
def lit (c : Char) : RE := .one (fun d => d = c)

def litCI (c : Char) : RE := .one (fun d => d.toLower = c.toLower)

def strLit (s : String) : RE := s.data.foldr (fun c r => .seq (lit c) r) .eps

def strCI (s : String) : RE := s.data.foldr (fun c r => .seq (litCI c) r) .eps

def alts : List RE → RE
  | [] => .eps
  | [r] => r
  | r :: rs => .alt r (alts rs)

def seqs : List RE → RE
  | [] => .eps
  | [r] => r
  | r :: rs => .seq r (seqs rs)

/-! ## The pdx adapter's string helpers (src/unnamed/part_001) -/

/-- `/<[^>]*>/g` from `stripHtml`. -/
def reHtmlTag : RE := seqs [lit '<', .many0 (fun c => c ≠ '>'), lit '>']

/-- `/\s+/g`. -/
def reWsPlus : RE := .many1 isJsWs

/-- `stripHtml`: `String(s).replace(/<[^>]*>/g, " ").replace(/\s+/g, " ").trim()`. -/
def stripHtml (s : String) : String :=
  ⟨jsTrim (replaceAll reWsPlus [' '] (replaceAll reHtmlTag [' '] s.data))⟩

/-- Shared tail of the two timestamp regexes:
`,\s+[A-Za-z]+\s+\d{1,2},\s+\d{4}\s+\d{1,2}:\d{2}\s+(?:AM|PM)\b`.
Capture groups (absent in the JS literals, harmless for matching) expose the
month name, day, year, hour, minute and meridiem for the date model. -/
def reTsTail : RE := seqs [lit ',', .many1 isJsWs, .grp 1 (.many1 Char.isAlpha),
  .many1 isJsWs, .grp 2 (.reps Char.isDigit 1 2), lit ',', .many1 isJsWs,
  .grp 3 (.reps Char.isDigit 4 4), .many1 isJsWs, .grp 4 (.reps Char.isDigit 1 2),
  lit ':', .grp 5 (.reps Char.isDigit 2 2), .many1 isJsWs,
  .grp 6 (.alt (strCI "AM") (strCI "PM")), .wb]

/-- `TS_INLINE` =
`/\b(?:Sun|Mon|Tue|Tues|Wed|Thu|Thur|Thurs|Fri|Sat)(?:day)?,\s+.../i`. -/
def reTsInline : RE := seqs [.wb,
  alts [strCI "Sun", strCI "Mon", strCI "Tue", strCI "Tues", strCI "Wed",
    strCI "Thu", strCI "Thur", strCI "Thurs", strCI "Fri", strCI "Sat"],
  .opt (strCI "day"), reTsTail]

/-- `TS_ANYWHERE` =
`/\b(?:Sunday|Monday|Tuesday|Wednesday|Thursday|Friday|Saturday),\s+.../i`. -/
def reTsAnywhere : RE := seqs [.wb,
  alts [strCI "Sunday", strCI "Monday", strCI "Tuesday", strCI "Wednesday",
    strCI "Thursday", strCI "Friday", strCI "Saturday"],
  reTsTail]

/-- `/\[(?:Portland Police|PPB|Police)[^#]*#([A-Za-z0-9-]+)\]/i`. -/
def reIncidentId : RE := seqs [lit '[',
  alts [strCI "Portland Police", strCI "PPB", strCI "Police"],
  .many0 (fun c => c ≠ '#'), lit '#',
  .grp 1 (.many1 (fun c => c.isAlpha || c.isDigit || c = '-')), lit ']']

/-- `/\s{2,}/g`, written as `\s\s+` (same matched runs). -/
def reWs2 : RE := seqs [.one isJsWs, .many1 isJsWs]

/-- `/\s*,\s*/g`. -/
def reCommaSpace : RE := seqs [.many0 isJsWs, lit ',', .many0 isJsWs]

/-- `/,\s*PORT(?:LAND)?\b\.?/i`. -/
def rePortSuffix : RE := seqs [lit ',', .many0 isJsWs, strCI "PORT",
  .opt (strCI "LAND"), .wb, .opt (lit '.')]

/-- `/,\s*(?:,)+/g`. -/
def reDoubleComma : RE := seqs [lit ',', .many0 isJsWs, .many1 (fun c => c = ',')]

/-- `/^,|,$/g`. -/
def reEdgeComma : RE := .alt (.seq .bos (lit ',')) (.seq (lit ',') .eos)

/-! ## Model of the V8 `Date` parse used for the KML timestamps

`parseKmlDescription` resolves a matched stamp such as
`"Sunday, August 17, 2025 4:20 PM"` by parsing `"<stamp> GMT-0700"` first and
`"<stamp> GMT-0800"` second with `new Date(...)` and taking
`.toISOString()`.  For stamps matched by `TS_ANYWHERE`, the `-0700` parse
succeeds whenever the month name and the numeric fields form a valid date,
so the model applies the `-0700` offset and yields `none` exactly when the
date is invalid.  Calendar arithmetic uses the standard civil-from-days
conversion. -/

def natOfDigits (l : List Char) : Nat :=
  l.foldl (fun acc c => acc * 10 + (c.toNat - 48)) 0

def monthOfName (m : List Char) : Option Nat :=
  let s := String.mk (lowerList m)
  if s = "january" ∨ s = "jan" then some 1
  else if s = "february" ∨ s = "feb" then some 2
  else if s = "march" ∨ s = "mar" then some 3
  else if s = "april" ∨ s = "apr" then some 4
  else if s = "may" then some 5
  else if s = "june" ∨ s = "jun" then some 6
  else if s = "july" ∨ s = "jul" then some 7
  else if s = "august" ∨ s = "aug" then some 8
  else if s = "september" ∨ s = "sep" then some 9
  else if s = "october" ∨ s = "oct" then some 10
  else if s = "november" ∨ s = "nov" then some 11
  else if s = "december" ∨ s = "dec" then some 12
  else none

def isLeap (y : Int) : Bool := (y % 4 = 0 ∧ y % 100 ≠ 0) ∨ y % 400 = 0

def daysInMonth (y : Int) (m : Nat) : Nat :=
  if m = 2 then (if isLeap y then 29 else 28)
  else if m = 4 ∨ m = 6 ∨ m = 9 ∨ m = 11 then 30
  else 31

/-- Days since 1970-01-01 of a proleptic-Gregorian civil date. -/
def daysFromCivil (y : Int) (m d : Nat) : Int :=
  let y2 : Int := if m ≤ 2 then y - 1 else y
  let era : Int := (if 0 ≤ y2 then y2 else y2 - 399) / 400
  let yoe : Int := y2 - era * 400
  let mp : Int := if 2 < m then (m : Int) - 3 else (m : Int) + 9
  let doy : Int := (153 * mp + 2) / 5 + (d : Int) - 1
  let doe : Int := yoe * 365 + yoe / 4 - yoe / 100 + doy
  era * 146097 + doe - 719468

/-- Civil date of a days-since-epoch count. -/
def civilFromDays (z0 : Int) : Int × Nat × Nat :=
  let z := z0 + 719468
  let era : Int := (if 0 ≤ z then z else z - 146096) / 146097
  let doe : Int := z - era * 146097
  let yoe : Int := (doe - doe / 1460 + doe / 36524 - doe / 146096) / 365
  let y : Int := yoe + era * 400
  let doy : Int := doe - (365 * yoe + yoe / 4 - yoe / 100)
  let mp : Int := (5 * doy + 2) / 153
  let d : Int := doy - (153 * mp + 2) / 5 + 1
  let m : Int := if mp < 10 then mp + 3 else mp - 9
  (if m ≤ 2 then y + 1 else y, m.toNat, d.toNat)

def pad2 (n : Nat) : String := if n < 10 then "0" ++ toString n else toString n

def isoOfEpochMinutes (t : Int) : String :=
  let days := t.ediv 1440
  let rem := (t.emod 1440).toNat
  let ymd := civilFromDays days
  toString ymd.1 ++ "-" ++ pad2 ymd.2.1 ++ "-" ++ pad2 ymd.2.2 ++ "T" ++
    pad2 (rem / 60) ++ ":" ++ pad2 (rem % 60) ++ ":00.000Z"

/-- Resolve the captured stamp fields at Pacific-daylight offset (GMT-0700)
to a UTC ISO-8601 instant, `none` when `new Date` would be invalid. -/
def stampToISO (mon day year hour minute ampm : List Char) : Option String :=
  match monthOfName mon with
  | none => none
  | some m =>
    let d := natOfDigits day
    let y : Int := natOfDigits year
    let h := natOfDigits hour
    let mi := natOfDigits minute
    if 1 ≤ d ∧ d ≤ daysInMonth y m ∧ 1 ≤ h ∧ h ≤ 12 ∧ mi ≤ 59 then
      let isPm := String.mk (lowerList ampm) = "pm"
      let h24 := h % 12 + (if isPm then 12 else 0)
      some (isoOfEpochMinutes
        (daysFromCivil y m d * 1440 + (h24 * 60 + mi : Nat) + 420))
    else none

def dateFromCaps (caps : List (Nat × List Char)) : Option String :=
  match caps.lookup 1, caps.lookup 2, caps.lookup 3,
      caps.lookup 4, caps.lookup 5, caps.lookup 6 with
  | some mon, some day, some year, some hour, some minute, some ampm =>
    stampToISO mon day year hour minute ampm
  | _, _, _, _, _, _ => none

/-- `String.prototype.indexOf` on char lists: position of the first
occurrence of `needle`. -/
def findSub (needle : List Char) : List Char → Option Nat
  | [] => if needle.isPrefixOf [] then some 0 else none
  | c :: cs =>
    if needle.isPrefixOf (c :: cs) then some 0
    else (findSub needle cs).map (· + 1)

structure KmlDescOut where
  cleanAddress : String
  incidentId : Option String
  updatedAt : Option String
deriving DecidableEq, Repr

/-- `parseKmlDescription` from the pdx adapter (src/unnamed/part_001 lines
25-81): strip markup, slice after the literal `" at "`, keep the first line,
strip an inline timestamp and the bracketed incident id (capturing it),
normalize punctuation, and resolve a weekday-long-date stamp found anywhere
in the full description to a UTC instant. -/
def parseKmlDescription (descRaw : String) : KmlDescOut :=
  let desc := (stripHtml descRaw).data
  let addrPart0 :=
    match findSub " at ".data (lowerList desc) with
    | some i => desc.drop (i + 4)
    | none => desc
  let addrPart1 := jsTrim (addrPart0.takeWhile (fun c => c ≠ '\n'))
  let addrPart2 := jsTrim (replaceFirst reTsInline [] addrPart1)
  let step3 :=
    match reFind reIncidentId none addrPart2 with
    | some (pre, _, rest, caps) =>
      ((caps.lookup 1).map String.mk, jsTrim (pre ++ rest))
    | none => (none, addrPart2)
  let a4 := replaceAll reWs2 [' '] step3.2
  let a5 := replaceAll reCommaSpace (", ".data) a4
  let a6 := replaceFirst rePortSuffix [] a5
  let a7 := replaceAll reDoubleComma [','] a6
  let a8 := jsTrim (replaceAll reEdgeComma [] a7)
  let updatedAt :=
    match reFind reTsAnywhere none desc with
    | some (_, _, _, caps) => dateFromCaps caps
    | none => none
  { cleanAddress := String.mk a8, incidentId := step3.1, updatedAt := updatedAt }

/-! ## JSON-ish values

JS numbers are `Option Rat`: `none` stands for NaN (and the non-finite
values, which the pipeline only ever probes through `Number.isFinite`). -/

inductive JSVal where
  | null : JSVal
  | undef : JSVal
  | num : Option ℚ → JSVal
  | str : String → JSVal
  | bool : Bool → JSVal
  | arr : List JSVal → JSVal
  | obj : List (String × JSVal) → JSVal
deriving Repr

def jsTruthy : JSVal → Bool
  | .null => false
  | .undef => false
  | .num none => false
  | .num (some q) => q ≠ 0
  | .str s => s ≠ ""
  | .bool b => b
  | .arr _ => true
  | .obj _ => true

/-- JS `??` operand test: `none` for `null`/`undefined`. -/
def nnOpt : JSVal → Option JSVal
  | .null => none
  | .undef => none
  | v => some v

/-- Property access as used behind `?.` or on object-valued rows: `undefined`
for a missing key or a primitive receiver.  (Access on `null`/`undefined`
throws in JS; the places where the source can hit that are modelled with
`getPropEx` instead.) -/
def propOf : JSVal → String → JSVal
  | .obj fs, k => match fs.lookup k with | some v => v | none => .undef
  | _, _ => (.undef : JSVal)

/-- Plain (non-optional-chained) property access: throws on `null` and
`undefined`. -/
def getPropEx : JSVal → String → Except Unit JSVal
  | .null, _ => .error ()
  | .undef, _ => .error ()
  | v, k => .ok (propOf v k)

/-- `v?.[i]`. -/
def jsIndex (v : JSVal) (i : Nat) : JSVal :=
  match v with
  | .arr xs => xs.getD i .undef
  | _ => (.undef : JSVal)

/-- `Number(string)`: whitespace-trimmed decimal literals (optionally signed,
with an optional fraction part), the shapes the feeds carry; anything else
is NaN.  The empty/blank string is `0`. -/
def jsStrToNum (s : String) : Option ℚ :=
  let t := jsTrim s.data
  if t.isEmpty then some 0
  else
    let sign : Int := if t.head? = some '-' then -1 else 1
    let t1 := if t.head? = some '-' ∨ t.head? = some '+' then t.drop 1 else t
    let intPart := t1.takeWhile Char.isDigit
    let t2 := t1.drop intPart.length
    let ok : Bool :=
      match t2 with
      | [] => !intPart.isEmpty
      | c :: frac =>
        decide (c = '.') && frac.all Char.isDigit &&
          (!intPart.isEmpty || !frac.isEmpty)
    if ok then
      let frac := (t2.drop 1)
      some (mkRat (sign * (natOfDigits intPart * 10 ^ frac.length + natOfDigits frac))
        (10 ^ frac.length))
    else none

/-- JS `Number(...)` coercion on the value shapes the feeds carry. -/
def jsToNumber : JSVal → Option ℚ
  | .num q => q
  | .undef => none
  | .null => some 0
  | .bool b => some (if b then 1 else 0)
  | .str s => jsStrToNum s
  | .arr [] => some 0
  | .arr [x] => jsToNumber x
  | .arr (_ :: _ :: _) => none
  | .obj _ => none

def isFiniteJS (v : JSVal) : Bool :=
  match v with
  | .num (some _) => true
  | _ => false

/-- Integer rationals (every number the feeds surface as text) rendered the
JS way; other rationals rendered as decimals when terminating. -/
def ratToJsString (q : ℚ) : String :=
  if q.den = 1 then
    (if q.num < 0 then "-" else "") ++ toString q.num.natAbs
  else toString q.num ++ "/" ++ toString q.den

mutual

def jsToString : JSVal → String
  | .str s => s
  | .num none => "NaN"
  | .num (some q) => ratToJsString q
  | .null => "null"
  | .undef => "undefined"
  | .bool b => if b then "true" else "false"
  | .arr xs => jsToStringList xs
  | .obj _ => "[object Object]"

def jsToStringList : List JSVal → String
  | [] => ""
  | [x] => jsToString x
  | x :: xs => jsToString x ++ "," ++ jsToStringList xs
end

/-! ## The geocode service (src/unnamed/part_000, services/geocode.js) -/

structure GeoRes where
  lat : Option ℚ
  lon : Option ℚ
  formatted : Option String
deriving DecidableEq, Repr

inductive GeoErr where
  | noKey : GeoErr
  | httpError : Nat → GeoErr
  | noResults : GeoErr
deriving DecidableEq, Repr

structure GeoCacheEntry where
  data : GeoRes
  expiresAt : Int
deriving DecidableEq, Repr

def geoFormattedOf (hit : JSVal) : Option String :=
  match propOf hit "formatted" with
  | .str s => some s
  | _ => none

/-- The cache-miss path of `geocode(address)`: upstream request (the
`(statusCode, body)` the provider returns for this address), top-hit
extraction, finiteness check, cache store.  Errors mirror the HTTP-status
and no-results `throw` sites. -/
def geocodeMiss (ttlMs : Int) (cache : List (String × GeoCacheEntry))
    (now : Int) (q : String) (resp : Nat × JSVal) :
    Except GeoErr (GeoRes × List (String × GeoCacheEntry)) :=
  if 400 ≤ resp.1 then .error (.httpError resp.1)
  else
    let hit := jsIndex (propOf resp.2 "results") 0
    let lat := propOf (propOf hit "geometry") "lat"
    let lon := propOf (propOf hit "geometry") "lng"
    if isFiniteJS lat ∧ isFiniteJS lon then
      let data : GeoRes :=
        { lat := jsToNumber lat, lon := jsToNumber lon,
          formatted := geoFormattedOf hit }
      .ok (data, (q, { data := data, expiresAt := now + ttlMs }) :: cache)
    else .error .noResults

/-- One call of `geocode(address)`: key check, cache probe by normalized
query with TTL, then the miss path.  The first `throw` site is the missing
key. -/
def geocodeModel (hasKey : Bool) (ttlMs : Int)
    (cache : List (String × GeoCacheEntry)) (now : Int)
    (upstream : String → Nat × JSVal) (address : String) :
    Except GeoErr (GeoRes × List (String × GeoCacheEntry)) :=
  if hasKey = false then .error .noKey
  else
    let q := normalizeAddress address
    let fresh :=
      match cache.lookup q with
      | some e => if now < e.expiresAt then some e.data else none
      | none => none
    match fresh with
    | some data => .ok (data, cache)
    | none => geocodeMiss ttlMs cache now q (upstream address)

/-! ## The pdx adapter (src/unnamed/part_001) -/

def containsSub (hay pat : String) : Bool := (findSub pat.data hay.data).isSome

/-- `withCityState` (pdx): append `", Portland, OR"` unless the lowercased
address already mentions portland / " or" / oregon. -/
def withCityStatePdx (address : Option String) : String :=
  match address with
  | none => "Portland, OR"
  | some a =>
    if a = "" then "Portland, OR"
    else
      let lower := String.mk (lowerList a.data)
      if containsSub lower "portland" || containsSub lower " or" ||
          containsSub lower "oregon" then a
      else a ++ ", Portland, OR"

structure PdxExtras where
  incidentTypeCode : JSVal := .undef
  incidentTypeName : JSVal := .undef
  priority : JSVal := .undef
  incidentId : Option String := none
deriving Repr

/-- Row shape produced by the three pdx parsers. -/
structure PdxRow where
  id : String
  name : String
  category : JSVal := .undef
  lat : Option ℚ := none
  lon : Option ℚ := none
  address : Option String := none
  updatedAt : Option String := none
  extras : PdxExtras := {}
deriving Repr

def finQ (o : Option ℚ) : Bool := o.isSome

def truthyStr : Option String → Bool
  | some s => s ≠ ""
  | none => false

/-- The in-place tidy step: `for (const r of rows) if (r.address) r.address =
withCityState(r.address)`. -/
def pdxTidy (rows : List PdxRow) : List PdxRow :=
  rows.map (fun r =>
    if truthyStr r.address then { r with address := some (withCityStatePdx r.address) }
    else r)

/-- `needGeo`: rows without finite native coordinates but with a truthy
address. -/
def pdxNeedGeo (rows : List PdxRow) : List PdxRow :=
  rows.filter (fun r => !(finQ r.lat && finQ r.lon) && truthyStr r.address)

/-- The shared dedup-map insertion: `if (norm && !map.has(norm))
map.set(norm, original)`. -/
def uniqInsert (m : List (String × String)) (orig : String) : List (String × String) :=
  let norm := normalizeAddress orig
  if norm ≠ "" ∧ (m.lookup norm).isNone then m ++ [(norm, orig)] else m

/-- The dedup map: first-insertion association list from normalized query to
the original address, skipping empty keys. -/
def pdxUniqueMap (rows : List PdxRow) : List (String × String) :=
  (pdxNeedGeo rows).foldl (fun m r => uniqInsert m (r.address.getD "")) []

/-- The worker pass: one `geocode(original)` call per unique key; a `none`
from the oracle models a thrown `GeocodeError` (caught and ignored, so the
key is simply absent from the result map). -/
def pdxGeoResults (oracle : String → Option GeoRes)
    (uniq : List (String × String)) : List (String × GeoRes) :=
  uniq.foldl (fun res p =>
    match oracle p.2 with
    | some g => res ++ [(p.1, g)]
    | none => res) []

/-- The list of addresses actually passed to the geocode resolver in one
pdx fetch. -/
def pdxGeocodeCalls (rows : List PdxRow) : List String :=
  (pdxUniqueMap (pdxTidy rows)).map Prod.snd

structure PdxPlace where
  id : String
  name : String
  category : Option String
  lat : ℚ
  lon : ℚ
  address : Option String
  callTimeReceived : Option String
  extrasTypeCode : JSVal
  extrasTypeName : JSVal
  extrasIncidentId : Option String
deriving Repr

/-- One iteration of the pdx places loop: coordinate selection (native if
finite, else the geocoded result of the normalized query, whose `formatted`
also replaces the display address when truthy), then the finiteness gate. -/
def pdxPlaceOfRow (geo : List (String × GeoRes)) (r : PdxRow) : Option PdxPlace :=
  let sel :=
    if !(finQ r.lat && finQ r.lon) && truthyStr r.address then
      match geo.lookup (normalizeAddress (r.address.getD "")) with
      | some g =>
        (g.lat, g.lon,
          match g.formatted with
          | some f => if f ≠ "" then some f else r.address
          | none => r.address)
      | none => (r.lat, r.lon, r.address)
    else (r.lat, r.lon, r.address)
  match sel.1, sel.2.1 with
  | some la, some lo =>
    some { id := r.id
           name := if r.name ≠ "" then r.name else "Incident"
           category := if jsTruthy r.category then some (jsToString r.category) else none
           lat := la
           lon := lo
           address := sel.2.2
           callTimeReceived := r.updatedAt
           extrasTypeCode := r.extras.incidentTypeCode
           extrasTypeName :=
             if jsTruthy r.extras.incidentTypeName then r.extras.incidentTypeName
             else .str r.name
           extrasIncidentId := r.extras.incidentId }
  | _, _ => none

def pdxPlaces (geo : List (String × GeoRes)) : List PdxRow → List PdxPlace
  | [] => []
  | r :: rs =>
    match pdxPlaceOfRow geo r with
    | some p => p :: pdxPlaces geo rs
    | none => pdxPlaces geo rs

/-- The pdx `fetchCity` pipeline after parsing (tidy, dedup, geocode,
assemble), with the network geocode call abstracted as `oracle`. -/
def pdxCore (oracle : String → Option GeoRes) (rows : List PdxRow) : List PdxPlace :=
  let rows2 := pdxTidy rows
  pdxPlaces (pdxGeoResults oracle (pdxUniqueMap rows2)) rows2

/-! ## The pdx format parsers (src/unnamed/part_001 lines 99-225)

`fast-xml-parser` and `cheerio` are lenient, non-throwing front ends; they
are modelled as already having produced a `JSVal` (for XML) or an `HtmlDoc`
(for HTML).  `JSON.parse` successes are likewise modelled as a `JSVal`.
`Math.random()`-based fallback identifiers are injected as `rands : Nat →
String` indexed by row position.  Host date-string parsing
(`new Date(string)`) is injected as `dateParse`. -/

def pad3 (n : Nat) : String :=
  if n < 10 then "00" ++ toString n
  else if n < 100 then "0" ++ toString n
  else toString n

def isoOfEpochMillis (ms : Int) : String :=
  let days := ms.ediv 86400000
  let rem := (ms.emod 86400000).toNat
  let ymd := civilFromDays days
  toString ymd.1 ++ "-" ++ pad2 ymd.2.1 ++ "-" ++ pad2 ymd.2.2 ++ "T" ++
    pad2 (rem / 3600000) ++ ":" ++ pad2 (rem % 3600000 / 60000) ++ ":" ++
    pad2 (rem % 60000 / 1000) ++ "." ++ pad3 (rem % 1000) ++ "Z"

/-- `safeISO` from the pdx adapter: falsy timestamps give `undefined`;
numbers go through `new Date(ms).toISOString()` (which throws outside the
±8.64e15 ms range — that throw is NOT caught by `safeISO`); strings go
through the host date parser; a date from any other truthy value is modelled
through its string form. -/
def safeISO (dateParse : String → Option String) (ts : JSVal) :
    Except Unit (Option String) :=
  if !jsTruthy ts then .ok none
  else
    match ts with
    | .num (some q) =>
      if q.num.natAbs ≤ 8640000000000000 * q.den then
        .ok (some (isoOfEpochMillis (q.num / (q.den : Int))))
      else .error ()
    | .num none => .ok none
    | .str s => .ok (dateParse s)
    | v => .ok (dateParse (jsToString v))

/-- `{...(f.properties || {}), ...f}`: later spread wins, so `f`'s fields
shadow the properties' (our `propOf` takes the first hit in the list). -/
def fieldsOf : JSVal → List (String × JSVal)
  | .obj fs => fs
  | _ => []

def jsOrElse (a b : JSVal) : JSVal := if jsTruthy a then a else b

def nnChain (l : List JSVal) (last : JSVal) : JSVal :=
  match l with
  | [] => last
  | v :: vs => match nnOpt v with | some w => w | none => nnChain vs last

/-- `r.geometry && r.geometry.coordinates && r.geometry.coordinates[i]`. -/
def geomCoord (r : JSVal) (i : Nat) : JSVal :=
  let g := propOf r "geometry"
  if !jsTruthy g then g
  else
    let c := propOf g "coordinates"
    if !jsTruthy c then c
    else jsIndex c i

def pdxTsRawOf (r : JSVal) : JSVal :=
  nnChain [propOf r "updatedAt", propOf r "LastUpdate", propOf r "time",
    propOf r "datetime", propOf r "LastUpdated"] (propOf r "CreationDate")

/-- One row of `parseJSONVariant`.  Plain (unguarded) property access on a
`null`/`undefined` row element throws `TypeError`. -/
def parseJSONVariantRow (dateParse : String → Option String) (rand : String)
    (r : JSVal) : Except Unit PdxRow :=
  match r with
  | .null => .error ()
  | .undef => .error ()
  | _ => do
    let idv := nnChain [propOf r "id", propOf r "objectid", propOf r "OBJECTID",
      propOf r "GlobalID", propOf r "GLOBALID", propOf r "callid",
      propOf r "CallID"] (.str rand)
    let typeName := nnChain [propOf r "IncidentTypeName", propOf r "type_name",
      propOf r "type", propOf r "CallType", propOf r "description"]
      (propOf r "Description")
    let typeCode := nnChain [propOf r "IncidentTypeCode", propOf r "type_code",
      propOf r "code"] (propOf r "CallTypeCode")
    let addressRaw := nnChain [propOf r "Address", propOf r "address",
      propOf r "Location", propOf r "location", propOf r "addr_full"] .null
    let latv := nnChain [propOf r "lat", propOf r "latitude"] (geomCoord r 1)
    let lonv := nnChain [propOf r "lon", propOf r "longitude"] (geomCoord r 0)
    let updatedAt ← safeISO dateParse (pdxTsRawOf r)
    .ok { id := jsToString idv
          name := jsToString (jsOrElse typeName (.str "Incident"))
          category := nnChain [propOf r "Category"] (propOf r "category")
          lat := jsToNumber latv
          lon := jsToNumber lonv
          address := if jsTruthy addressRaw then some (jsToString addressRaw) else none
          updatedAt := updatedAt
          extras := { incidentTypeCode := typeCode, incidentTypeName := typeName,
                      priority := nnChain [propOf r "Priority"] (propOf r "priority") } }

def traverseExcept {α β : Type} (f : Nat → α → Except Unit β) :
    Nat → List α → Except Unit (List β)
  | _, [] => .ok []
  | i, x :: xs => do
    let y ← f i x
    let ys ← traverseExcept f (i + 1) xs
    .ok (y :: ys)

/-- `{...(f.properties || {}), ...f}` (the feature's own fields win). -/
def mergedFeature (f : JSVal) : JSVal :=
  .obj (fieldsOf f ++ fieldsOf (jsOrElse (propOf f "properties") (.obj [])))

def isArr : JSVal → Bool
  | .arr _ => true
  | _ => false

def arrOf : JSVal → List JSVal
  | .arr xs => xs
  | _ => []

/-- `parseJSONVariant`: a bare array, an `{incidents: [...]}` envelope, or a
GeoJSON `{features: [...]}` envelope (each feature merged over its
`properties`); anything else gives no rows.  Accessing `.properties` of a
nullish feature, or any field of a nullish row, throws. -/
def parseJSONVariant (dateParse : String → Option String) (rands : Nat → String)
    (json : JSVal) : Except Unit (List PdxRow) := do
  let rows ←
    if isArr json then .ok (arrOf json)
    else if isArr (propOf json "incidents") then .ok (arrOf (propOf json "incidents"))
    else if isArr (propOf json "features") then
      traverseExcept (fun _ f =>
        (getPropEx f "properties").map (fun _ => mergedFeature f)) 0
        (arrOf (propOf json "features"))
    else .ok []
  traverseExcept (fun i r => parseJSONVariantRow dateParse (rands i) r) 0 rows

/-- `"lon,lat[,alt]".split(",")` entries after `s && s.trim()`. -/
def splitOn (sep : Char) : List Char → List (List Char)
  | [] => [[]]
  | c :: cs =>
    if c = sep then [] :: splitOn sep cs
    else
      match splitOn sep cs with
      | [] => [[c]]
      | p :: ps => (c :: p) :: ps

/-- `parseKML` applied to the value the XML parser produced.  Every access
is optional-chained in the source, so this parser is total. -/
def kmlDocOf (kml : JSVal) : JSVal :=
  jsOrElse (propOf (propOf kml "kml") "Document")
    (jsOrElse (propOf kml "Document") (propOf kml "kml"))

def parseKML (rands : Nat → String) (kml : JSVal) : List PdxRow :=
  let doc := kmlDocOf kml
  let pms :=
    if isArr (propOf doc "Placemark") then arrOf (propOf doc "Placemark")
    else if jsTruthy (propOf doc "Placemark") then [propOf doc "Placemark"]
    else []
  (pms.enum.map (fun pi =>
    let pm := pi.2
    let title := jsOrElse (propOf pm "name") (jsOrElse (propOf pm "Name") (.str "Incident"))
    let description := jsToString (jsOrElse (propOf pm "description") (.str ""))
    let coordText := jsOrElse (propOf (propOf pm "Point") "coordinates")
      (jsOrElse (propOf pm "coordinates") (.str ""))
    let parts := (splitOn ',' (jsToString coordText).data).map (fun s =>
      if s.isEmpty then s else jsTrim s)
    let lonStr := parts.getD 0 []
    let latStr := parts.getD 1 []
    let lat : Option ℚ := if latStr ≠ [] then jsStrToNum (String.mk latStr) else none
    let lon : Option ℚ := if lonStr ≠ [] then jsStrToNum (String.mk lonStr) else none
    let titleChars := (jsToString title).data
    let name := String.mk (jsTrim
      (match findSub " at ".data titleChars with
       | some i => titleChars.take i
       | none => titleChars))
    let desc := parseKmlDescription description
    { id := jsToString (jsOrElse (propOf pm "id")
        (jsOrElse (propOf pm "name") (.str (rands pi.1))))
      name := if name ≠ "" then name else "Incident"
      category := .undef
      lat := if lat.isSome then lat else none
      lon := if lon.isSome then lon else none
      address := if desc.cleanAddress ≠ "" then some desc.cleanAddress else none
      updatedAt := desc.updatedAt
      extras := { incidentTypeCode := .undef
                  incidentTypeName := if name ≠ "" then .str name else .undef
                  incidentId := desc.incidentId } }))

/-! ## The html table parser (src/unnamed/part_001 lines 179-225)

`cheerio.load` is lenient and total; it is modelled as having produced an
`HtmlDoc`: the tables in document order, each a list of `tr` rows, each a
list of cells (tagged `th`/`td`) carrying their trimmed-free text and the
`href`s of contained anchors. -/

structure HtmlCell where
  isTh : Bool
  text : String
  links : List String := []
deriving Repr

structure HtmlDoc where
  tables : List (List (List HtmlCell))
deriving Repr

/-- `/[?&]q=(-?\d+(\.\d+)?),\s*(-?\d+(\.\d+)?)/` (uses `m[1]`, `m[3]`). -/
def reNum : RE := seqs [.opt (lit '-'), .many1 Char.isDigit,
  .opt (seqs [lit '.', .many1 Char.isDigit])]

def reQCoord : RE := seqs [.one (fun c => c = '?' || c = '&'), lit 'q', lit '=',
  .grp 1 reNum, lit ',', .many0 isJsWs, .grp 3 reNum]

/-- `/!3d(-?\d+(\.\d+)?)!4d(-?\d+(\.\d+)?)/` (uses `m[1]`, `m[3]`). -/
def reD3Coord : RE := seqs [strLit "!3d", .grp 1 reNum, strLit "!4d", .grp 3 reNum]

/-- `safeISO` restricted to the string-or-undefined timestamps the HTML rows
carry (never throws on those). -/
def safeISOStr (dateParse : String → Option String) : Option String → Option String
  | none => none
  | some s => if s = "" then none else dateParse s

def htmlHeaderTest (pats : List String) (h : String) : Bool :=
  pats.any (fun p => containsSub h p)

def parseHTMLTable (dateParse : String → Option String) (rands : Nat → String)
    (doc : HtmlDoc) : List PdxRow :=
  match doc.tables.head? with
  | none => []
  | some trs =>
    let headers := (trs.headD []).map (fun c =>
      String.mk (lowerList (jsTrim c.text.data)))
    let idxProblem := headers.findIdx? (htmlHeaderTest ["problem", "type", "incident"])
    let idxAddress := headers.findIdx? (htmlHeaderTest ["address", "location"])
    let idxTime := headers.findIdx? (htmlHeaderTest ["received", "time", "datetime", "updated"])
    ((trs.drop 1).enum.filterMap (fun itr =>
      let tds := itr.2.filter (fun c => !c.isTh)
      if tds.isEmpty then none
      else
        let get : Option Nat → Option String := fun idx =>
          match idx with
          | some i =>
            if i < tds.length then some (String.mk (jsTrim ((tds.getD i ⟨false, "", []⟩).text.data)))
            else none
          | none => none
        let name := match get idxProblem with
          | some s => if s ≠ "" then s else "Incident"
          | none => "Incident"
        let addressRaw := get idxAddress
        let updatedAt := safeISOStr dateParse (get idxTime)
        let allLinks := (tds.map (fun c => c.links)).flatten.filter (fun h =>
          containsSub h "google." || containsSub h "maps")
        let coords : Option ℚ × Option ℚ := allLinks.foldl (fun acc href =>
          match reFind reQCoord none href.data with
          | some (_, _, _, caps) =>
            (match caps.lookup 1, caps.lookup 3 with
             | some a, some b => (jsStrToNum (String.mk a), jsStrToNum (String.mk b))
             | _, _ => acc)
          | none =>
            match reFind reD3Coord none href.data with
            | some (_, _, _, caps) =>
              (match caps.lookup 1, caps.lookup 3 with
               | some a, some b => (jsStrToNum (String.mk a), jsStrToNum (String.mk b))
               | _, _ => acc)
            | none => acc) (none, none)
        some { id := rands itr.1
               name := name
               category := .undef
               lat := if (coords.1).isSome then coords.1 else none
               lon := if (coords.2).isSome then coords.2 else none
               address := addressRaw
               updatedAt := updatedAt
               extras := { incidentTypeCode := .undef, incidentTypeName := .str name } }))

/-! ## The Nashville adapter (src/src/adapters/nashville.js) -/

/-- `/\\+/g` → `"/"`. -/
def reBackslashes : RE := .many1 (fun c => c.toNat = 92)

/-- `/\s*\/\s*/g` → `" / "`. -/
def reSlashSpace : RE := seqs [.many0 isJsWs, lit '/', .many0 isJsWs]

/-- `normalizeIntersection` (nashville): trim, backslashes to slash,
normalize slash spacing, collapse double spaces. -/
def normalizeIntersectionNash (s : String) : String :=
  String.mk (replaceAll reWs2 [' ']
    (replaceAll reSlashSpace " / ".data
      (replaceAll reBackslashes ['/'] (jsTrim s.data))))

def isLowerAZ (c : Char) : Bool := decide (97 ≤ c.toNat ∧ c.toNat ≤ 122)

/-- tail class `[a-z0-9']` of the titleCase regex. -/
def isTitleTail (c : Char) : Bool := isLowerAZ c || c.isDigit || c.toNat = 39

/-- State machine for `.replace(/\b([a-z])([a-z0-9']*)/g, up-first)`:
`inTail` records that we are inside a chunk the regex already consumed. -/
def titleGo (prev : Option Char) (inTail : Bool) : List Char → List Char
  | [] => []
  | c :: cs =>
    if inTail && isTitleTail c then c :: titleGo (some c) true cs
    else if isLowerAZ c && !prevWord prev then
      Char.toUpper c :: titleGo (some c) true cs
    else c :: titleGo (some c) false cs

/-- `titleCase` (nashville): lowercase, then uppercase the first letter of
every word-boundary `[a-z][a-z0-9']*` chunk. -/
def titleCaseNash (s : String) : String :=
  String.mk (titleGo none false (lowerList s.data))

def upperStr (s : String) : String := String.mk (s.data.map Char.toUpper)

def PRECINCT_OR_DIRECTION : List String :=
  ["EAST", "WEST", "NORTH", "SOUTH", "CENTRAL", "MIDTOWN", "DOWNTOWN"]

/-- `pickDisplayCity`: directional precinct labels fall back to Nashville. -/
def pickDisplayCity (cityName : JSVal) : String :=
  let raw := String.mk (jsTrim (jsToString (jsOrElse cityName (.str ""))).data)
  if raw = "" then "Nashville"
  else if PRECINCT_OR_DIRECTION.contains (upperStr raw) then "Nashville"
  else titleCaseNash raw

/-- `buildDisplayAddress`: printable address strictly from the feed street
and the chosen city. -/
def buildDisplayAddress (rawStreet : JSVal) (cityName : JSVal) : String :=
  let street := titleCaseNash (normalizeIntersectionNash
    (jsToString (jsOrElse rawStreet (.str ""))))
  let city := pickDisplayCity cityName
  if street = "" then city ++ ", TN"
  else street ++ ", " ++ city ++ ", TN"

def extractAddress (props : JSVal) : JSVal :=
  nnChain [propOf props "Address", propOf props "ADDRESS", propOf props "Location",
    propOf props "LOCATION", propOf props "addr_full", propOf props "Street",
    propOf props "STREET"] .null

def extractId (rand : String) (props : JSVal) : String :=
  jsToString (nnChain [propOf props "GlobalID", propOf props "GLOBALID",
    propOf props "OBJECTID", propOf props "objectid", propOf props "IncidentNumber",
    propOf props "Incident_No", propOf props "CallID", propOf props "id"] (.str rand))

def extractCategory (props : JSVal) : JSVal :=
  nnChain [propOf props "IncidentDescription", propOf props "CALL_TYPE",
    propOf props "Event_Type", propOf props "CallType", propOf props "Description",
    propOf props "TYPE"] .undef

def extractName (props : JSVal) (fallbackCat : JSVal) : JSVal :=
  nnChain [propOf props "Headline", propOf props "Title", fallbackCat] (.str "Incident")

/-- `toISO` (nashville): `undefined` for nullish, epoch-ms numbers through
`toISOString` (throws out of range, and on NaN), strings through the host
parser, anything else `undefined`. -/
def toISONash (dateParse : String → Option String) (ts : JSVal) :
    Except Unit (Option String) :=
  match ts with
  | .null => .ok none
  | .undef => .ok none
  | .num (some q) =>
    if q.num.natAbs ≤ 8640000000000000 * q.den then
      .ok (some (isoOfEpochMillis (q.num / (q.den : Int))))
    else .error ()
  | .num none => .error ()
  | .str s => .ok (dateParse s)
  | _ => .ok none

def extractUpdatedAtRaw (props : JSVal) : JSVal :=
  nnChain [propOf props "LastUpdated", propOf props "LastUpdate"] (propOf props "UpdatedAt")

def extractCallTimeReceivedRaw (props : JSVal) : JSVal :=
  nnChain [propOf props "CallReceivedTime", propOf props "call_received",
    propOf props "Call_Received"] (propOf props "datetime")

/-- `formatIncidentTypeName`: lowercase, then uppercase the first character
of every chunk between `/`, `-` and space delimiters (delimiters kept). -/
def isDelimFmt (c : Char) : Bool := c = '/' || c = '-' || c = ' '

def fmtGo (atStart : Bool) : List Char → List Char
  | [] => []
  | c :: cs =>
    if isDelimFmt c then c :: fmtGo true cs
    else (if atStart then Char.toUpper c else c) :: fmtGo false cs

def formatIncidentTypeName (raw : JSVal) : Option String :=
  if !jsTruthy raw then none
  else some (String.mk (jsTrim (fmtGo true (lowerList (jsToString raw).data))))

def nashCityNameOf (props : JSVal) : JSVal :=
  jsOrElse (propOf props "CityName") (jsOrElse (propOf props "city") (propOf props "CITYNAME"))

/-- The display address a feature yields: feed street fields plus the
city/state display policy, nothing else. -/
def nashDisplayOf (f : JSVal) : String :=
  let props := jsOrElse (propOf f "properties") (.obj [])
  buildDisplayAddress (extractAddress props) (nashCityNameOf props)

structure NashPrelim where
  props : JSVal
  id : String
  category : JSVal
  name : JSVal
  displayAddress : String
  updatedAt : Option String
  callTimeReceived : Option String
deriving Repr

/-- Step 1 of `fetchCity`: the pre-map over `geojson.features`. -/
def nashPrelimOf (dateParse : String → Option String) (rands : Nat → String)
    (features : List JSVal) : Except Unit (List NashPrelim) :=
  traverseExcept (fun i f => do
    let props := jsOrElse (propOf f "properties") (.obj [])
    let baseAddr := extractAddress props
    let cityName := nashCityNameOf props
    let updatedAt ← toISONash dateParse (extractUpdatedAtRaw props)
    let callTime ← toISONash dateParse (extractCallTimeReceivedRaw props)
    .ok { props := props
          id := extractId (rands i) props
          category := extractCategory props
          name := extractName props (extractCategory props)
          displayAddress := buildDisplayAddress baseAddr cityName
          updatedAt := updatedAt
          callTimeReceived := callTime }) 0 features

/-- Step 2: dedupe display addresses to unique normalized keys. -/
def nashUniqueMap (prelim : List NashPrelim) : List (String × String) :=
  prelim.foldl (fun m r =>
    if r.displayAddress ≠ "" then uniqInsert m r.displayAddress else m) []

/-- `/, [^,]+, TN$/i`. -/
def reTrailingCityTN : RE := seqs [lit ',', lit ' ', .many1 (fun c => c ≠ ','),
  lit ',', lit ' ', litCI 'T', litCI 'N', .eos]

/-- `/TN$/i`. -/
def reTNEnd : RE := seqs [litCI 'T', litCI 'N', .eos]

/-- `forceNashville`: replace a trailing `", <something>, TN"` with
`", Nashville, TN"`; keep addresses already ending in `TN`; else append. -/
def forceNashville (address : String) : String :=
  if reTest reTrailingCityTN address.data then
    String.mk (replaceFirst reTrailingCityTN ", Nashville, TN".data address.data)
  else if reTest reTNEnd address.data then address
  else address ++ ", Nashville, TN"

/-- One geocode worker of the Nashville fetch (the body of the
`mapWithConcurrency` callback, src/src/adapters/nashville.js lines 221-247).
`oracle addr = none` models a thrown `geocode` call; the whole body sits in
one `try`, so a throw anywhere leaves the key absent from the result map.
`tooFar lat lon` stands for
`haversineMiles({lat, lon}, NASHVILLE_CENTER) > MAX_MILES`; the retry accept
test `haversineMiles(...) <= MAX_MILES` is its negation (the two comparisons
in the source are complementary on the finite values reaching them). -/
def nashvilleWorker (tooFar : ℚ → ℚ → Bool) (oracle : String → Option GeoRes)
    (original : String) : Option GeoRes :=
  match oracle original with
  | none => none
  | some g =>
    if finQ g.lat && finQ g.lon && tooFar (g.lat.getD 0) (g.lon.getD 0) then
      match oracle (forceNashville original) with
      | none => none
      | some g2 =>
        if finQ g2.lat && finQ g2.lon && !tooFar (g2.lat.getD 0) (g2.lon.getD 0) then
          some g2
        else some g
    else some g

def nashGeoResults (tooFar : ℚ → ℚ → Bool) (oracle : String → Option GeoRes)
    (uniq : List (String × String)) : List (String × GeoRes) :=
  uniq.foldl (fun res p =>
    match nashvilleWorker tooFar oracle p.2 with
    | some g => res ++ [(p.1, g)]
    | none => res) []

structure NashPlace where
  id : String
  name : String
  category : Option String
  lat : ℚ
  lon : ℚ
  address : String
  callTimeReceived : Option String
  updatedAt : Option String
  extrasTypeCode : JSVal
  extrasTypeName : Option String
deriving Repr

/-- Step 4: build final places; the output `address` is always the record's
own `displayAddress`. -/
def nashPlaceOfRow (geo : List (String × GeoRes)) (r : NashPrelim) : Option NashPlace :=
  let g :=
    if r.displayAddress ≠ "" then geo.lookup (normalizeAddress r.displayAddress)
    else none
  match g with
  | none => none
  | some g =>
    if finQ g.lat && finQ g.lon then
      some { id := r.id
             name := jsToString r.name
             category := if jsTruthy r.category then some (jsToString r.category) else none
             lat := g.lat.getD 0
             lon := g.lon.getD 0
             address := r.displayAddress
             callTimeReceived := r.callTimeReceived
             updatedAt := r.updatedAt
             extrasTypeCode := propOf r.props "IncidentTypeCode"
             extrasTypeName := formatIncidentTypeName (propOf r.props "IncidentTypeName") }
    else none

def nashPlaces (geo : List (String × GeoRes)) : List NashPrelim → List NashPlace
  | [] => []
  | r :: rs =>
    match nashPlaceOfRow geo r with
    | some p => p :: nashPlaces geo rs
    | none => nashPlaces geo rs

/-- The Nashville `fetchCity` pipeline after the feed fetch. -/
def nashCore (tooFar : ℚ → ℚ → Bool) (oracle : String → Option GeoRes)
    (prelim : List NashPrelim) : List NashPlace :=
  nashPlaces (nashGeoResults tooFar oracle (nashUniqueMap prelim)) prelim

/-! ## The sf adapter (src/src/adapters/sf.js): strict coordinate extraction -/

/-- `/POINT\s*\(\s*(-?\d+(?:\.\d+)?)\s+(-?\d+(?:\.\d+)?)\s*\)/i`. -/
def reWktPoint : RE := seqs [strCI "POINT", .many0 isJsWs, lit '(', .many0 isJsWs,
  .grp 1 reNum, .many1 isJsWs, .grp 2 reNum, .many0 isJsWs, lit ')']

def isObjectTypeof : JSVal → Bool
  | .obj _ => true
  | .arr _ => true
  | _ => false

/-- The candidate loop inside `extractCoords`: GeoJSON coordinate pairs,
`{latitude, longitude}` containers, and WKT `POINT (lon lat)` strings. -/
def extractCoordsLoop : List JSVal → Option ℚ × Option ℚ
  | [] => (none, none)
  | loc :: rest =>
    if !jsTruthy loc then extractCoordsLoop rest
    else
      let geoHit : Option (ℚ × ℚ) :=
        if isObjectTypeof loc ∧ isArr (propOf loc "coordinates") ∧
            2 ≤ (arrOf (propOf loc "coordinates")).length then
          match jsToNumber (jsIndex (propOf loc "coordinates") 1),
              jsToNumber (jsIndex (propOf loc "coordinates") 0) with
          | some la, some lo => some (la, lo)
          | _, _ => none
        else none
      match geoHit with
      | some p => (some p.1, some p.2)
      | none =>
        match jsToNumber (propOf loc "latitude"), jsToNumber (propOf loc "longitude") with
        | some la, some lo => (some la, some lo)
        | _, _ =>
          match loc with
          | .str s =>
            (match reFind reWktPoint none s.data with
             | some (_, _, _, caps) =>
               (match caps.lookup 1, caps.lookup 2 with
                | some mlon, some mlat =>
                  (match jsStrToNum (String.mk mlat), jsStrToNum (String.mk mlon) with
                   | some la, some lo => (some la, some lo)
                   | _, _ => extractCoordsLoop rest)
                | _, _ => extractCoordsLoop rest)
             | none => extractCoordsLoop rest)
          | _ => extractCoordsLoop rest

/-- `extractCoords` (sf.js lines 34-66): `{lat, lon}` from known SF fields —
top-level latitude/longitude first, then the GeoJSON/Socrata containers.
No bounding box and no range check: only `Number.isFinite` gates. -/
def extractCoords (row : JSVal) : Option ℚ × Option ℚ :=
  let lat := jsToNumber (propOf row "latitude")
  let lon := jsToNumber (propOf row "longitude")
  if lat.isSome && lon.isSome then (lat, lon)
  else
    extractCoordsLoop [propOf row "intersection_point", propOf row "location",
      propOf row "point", propOf row "location_1", propOf row "geom",
      propOf row "geometry"]

/-! ## The sf bounding-box variant (src/unnamed/part_002) -/

/-- Default bbox configuration (`SF_MIN_LAT` etc. unset). -/
def SF_MIN_LAT : ℚ := mkRat 3755 100

def SF_MAX_LAT : ℚ := mkRat 3795 100

def SF_MIN_LON : ℚ := mkRat (-12260) 100

def SF_MAX_LON : ℚ := mkRat (-1222) 10

/-- `SF_BBOX_ENFORCE` defaults to `"true"`. -/
def ENFORCE_BBOX : Bool := true

/-- `inSF(lat, lon)`: finite and (when enforcement is on) inside the box. -/
def inSF (lat lon : Option ℚ) : Bool :=
  if !(finQ lat && finQ lon) then false
  else if !ENFORCE_BBOX then true
  else decide (SF_MIN_LAT ≤ lat.getD 0 ∧ lat.getD 0 ≤ SF_MAX_LAT ∧
    SF_MIN_LON ≤ lon.getD 0 ∧ lon.getD 0 ≤ SF_MAX_LON)

/-- `withCityState` (sf variant): squeeze space-comma runs, then append
`", San Francisco, CA"` unless the address already mentions the city/state. -/
def reWsComma : RE := seqs [.many1 isJsWs, lit ',']

def reCommaWsComma : RE := seqs [lit ',', .many1 isJsWs, lit ',']

def withCityStateSf (addr : String) : String :=
  if addr = "" then "San Francisco, CA"
  else
    let clean := String.mk (jsTrim (replaceAll reCommaWsComma [',']
      (replaceAll reWsComma [','] addr.data)))
    let lower := String.mk (lowerList clean.data)
    if containsSub lower "san francisco" || containsSub lower " ca" ||
        containsSub lower "california" then clean
    else clean ++ ", San Francisco, CA"

/-- `/\d+\s+[a-z]/i`, `/ block\b/i`, `/\b(st|street|...)\b/i`. -/
def reNumThenLetter : RE := seqs [.many1 Char.isDigit, .many1 isJsWs,
  .one (fun c => isLowerAZ c.toLower)]

def reBlock : RE := seqs [lit ' ', strCI "block", .wb]

def reStreetWord : RE := seqs [.wb,
  alts [strCI "st", strCI "street", strCI "ave", strCI "avenue", strCI "blvd",
    strCI "dr", strCI "rd", strCI "ln", strCI "terr", strCI "pl", strCI "ct"], .wb]

def looksStreetSpecific (str : String) : Bool :=
  let t := String.mk (lowerList str.data)
  reTest reNumThenLetter t.data || containsSub t "&" || containsSub t " / " ||
    reTest reBlock t.data || reTest reStreetWord t.data

/-- Prelim record of the sf bbox variant (coords from
`extractCoordsStrict`, street and geocode query from the dataset;
`geocodeQuery` is never empty thanks to the City-Hall fallback). -/
structure SfbPrelim where
  id : String
  name : String
  lat : Option ℚ := none
  lon : Option ℚ := none
  streetFromDataset : String := ""
  geocodeQuery : String
  updatedAt : Option String := none
deriving Repr

def sfbNeedGeo (prelim : List SfbPrelim) : List SfbPrelim :=
  prelim.filter (fun p => !(finQ p.lat && finQ p.lon) && p.geocodeQuery ≠ "")

def sfbUniqueMap (prelim : List SfbPrelim) : List (String × String) :=
  (sfbNeedGeo prelim).foldl (fun m p =>
    uniqInsert m (withCityStateSf p.geocodeQuery)) []

/-- The sfb geocode pass: a result enters the map only if it lands `inSF`. -/
def sfbGeoResults (oracle : String → Option GeoRes)
    (uniq : List (String × String)) : List (String × GeoRes) :=
  uniq.foldl (fun res p =>
    match oracle p.2 with
    | some g => if inSF g.lat g.lon then res ++ [(p.1, g)] else res
    | none => res) []

structure SfbPlace where
  id : String
  name : String
  lat : ℚ
  lon : ℚ
  address : String
  updatedAt : Option String
deriving Repr

/-- Final sfb loop: native-else-geocoded coordinates, the `inSF` gate, and
the display-address choice (dataset street, else street-specific geocoder
`formatted`, suffixed with the city/state). -/
def sfbPlaceOfRow (geo : List (String × GeoRes)) (p : SfbPrelim) : Option SfbPlace :=
  let sel :=
    if !(finQ p.lat && finQ p.lon) && (p.geocodeQuery ≠ "") then
      match geo.lookup (normalizeAddress (withCityStateSf p.geocodeQuery)) with
      | some g => (g.lat, g.lon)
      | none => (p.lat, p.lon)
    else (p.lat, p.lon)
  if !inSF sel.1 sel.2 then none
  else
    let display0 := String.mk (jsTrim p.streetFromDataset.data)
    let display1 :=
      if display0 = "" then
        match geo.lookup (normalizeAddress (withCityStateSf p.geocodeQuery)) with
        | some g =>
          match g.formatted with
          | some f => if looksStreetSpecific f then f else ""
          | none => ""
        | none => ""
      else display0
    some { id := p.id, name := p.name, lat := sel.1.getD 0, lon := sel.2.getD 0,
           address := withCityStateSf display1, updatedAt := p.updatedAt }

def sfbPlaces (geo : List (String × GeoRes)) : List SfbPrelim → List SfbPlace
  | [] => []
  | p :: ps =>
    match sfbPlaceOfRow geo p with
    | some q => q :: sfbPlaces geo ps
    | none => sfbPlaces geo ps

/-- The sf bbox variant `fetchCity` from the prelim pass on. -/
def sfbCore (oracle : String → Option GeoRes) (prelim : List SfbPrelim) : List SfbPlace :=
  sfbPlaces (sfbGeoResults oracle (sfbUniqueMap prelim)) prelim

/-! ## Concrete inputs used by the per-claim theorems -/

/-- A well-formed Socrata-style row whose only coordinate source is the
out-of-range field `lat = "91"`. -/
def c1Row91 : JSVal := .obj [("id", .str "x1"), ("type", .str "Theft"),
  ("address", .str "1 Main St"), ("lat", .str "91"), ("lon", .str "-122.4")]

def c1SfRow91 : JSVal := .obj [("latitude", .str "91"), ("longitude", .str "-122.41")]

def noOracle : String → Option GeoRes := fun _ => none

def noDateParse : String → Option String := fun _ => none

def defaultRands : Nat → String := fun _ => "rnd"

/-- C2 counterexample data: the first geocode of the Franklin address
returns a finite result, the forced-Nashville retry throws. -/
def c2Addr : String := "100 Main St, Franklin, TN"

def c2Far : GeoRes := { lat := some 35, lon := some (-86), formatted := some "Franklin" }

def c2Oracle : String → Option GeoRes := fun a => if a = c2Addr then some c2Far else none

def c2TooFar : ℚ → ℚ → Bool := fun _ _ => true

/-- C2 witness data: retry returns an in-radius result. -/
def c2Near : GeoRes := { lat := some 36, lon := some (-87), formatted := some "Nashville" }

def c2OracleW : String → Option GeoRes := fun a =>
  if a = c2Addr then some c2Far
  else if a = "100 Main St, Nashville, TN" then some c2Near
  else none

/-- `tooFar` holding exactly away from `c2Near`'s point. -/
def c2TooFarW : ℚ → ℚ → Bool := fun la lo => !(la = 36 && lo = -87)

/-- C3 scenario rows: addresses differing only in case and whitespace. -/
def c3RowA : PdxRow := { id := "a", name := "Theft", address := some "5th Ave" }

def c3RowB : PdxRow := { id := "b", name := "Theft", address := some "5th   ave" }

/-- C4 counterexample: a row without native coordinates whose geocoded
result carries a formatted label. -/
def c4Row : PdxRow := { id := "a", name := "Theft", address := some "123 Main St" }

def c4Geo : GeoRes := { lat := some 45, lon := some (-122), formatted := some "Geocoderville 1" }

def c4Oracle : String → Option GeoRes := fun _ => some c4Geo

/-- C5 witness rows. -/
def c5RowNative : PdxRow :=
  { id := "n", name := "T", lat := some 1, lon := some 2, address := some "x" }

def c5PlaceNative : PdxPlace :=
  { id := "n", name := "T", category := none, lat := 1, lon := 2,
    address := some "x", callTimeReceived := none, extrasTypeCode := .undef,
    extrasTypeName := .str "T", extrasIncidentId := none }

def c6Desc : String :=
  "Theft at 123 Main St, Sunday, August 17, 2025 4:20 PM [Portland Police #PP1]"

/-- C7 witness data: one finite hit. -/
def c7Body : JSVal := .obj [("results", .arr [.obj [
  ("geometry", .obj [("lat", .num (some 36)), ("lng", .num (some (-86)))]),
  ("formatted", .str "somewhere")]])]

def c7Upstream : String → Nat × JSVal := fun _ => (200, c7Body)

/-- C10 witness prelim: native in-box coordinates. -/
def c10Prelim : SfbPrelim :=
  { id := "s", name := "T", lat := some (mkRat 377 10), lon := some (mkRat (-1224) 10),
    streetFromDataset := "Market St", geocodeQuery := "Market St" }

/-! ## Claim theorems -/

def c4Feature : JSVal := .obj [("properties", .obj
  [("Address", .str "123 main st"), ("CityName", .str "EAST"),
   ("IncidentNumber", .str "N1"), ("IncidentDescription", .str "Theft")])]

def c4NashOracle : String → Option GeoRes := fun _ => some c2Near

def c4NashPrelimRec : NashPrelim :=
  { props := JSVal.obj
      [("Address", JSVal.str "123 main st"), ("CityName", JSVal.str "EAST"),
       ("IncidentNumber", JSVal.str "N1"), ("IncidentDescription", JSVal.str "Theft")],
    id := "N1", category := JSVal.str "Theft", name := JSVal.str "Theft",
    displayAddress := "123 Main St, Nashville, TN",
    updatedAt := none, callTimeReceived := none }

def c4NashPlace : NashPlace :=
  { id := "N1", name := "Theft", category := some "Theft", lat := 36, lon := -87,
    address := "123 Main St, Nashville, TN", callTimeReceived := none,
    updatedAt := none, extrasTypeCode := JSVal.undef, extrasTypeName := none }

def c10Place : SfbPlace :=
  { id := "s", name := "T", lat := mkRat 377 10, lon := mkRat (-1224) 10,
    address := "Market St, San Francisco, CA", updatedAt := none }

def resultsArr (body : JSVal) : List JSVal := arrOf (propOf body "results")

def hitFinite (hit : JSVal) : Bool :=
  isFiniteJS (propOf (propOf hit "geometry") "lat") &&
    isFiniteJS (propOf (propOf hit "geometry") "lng")

/-- Cache entries are only ever written from successful (finite) lookups. -/
def cacheFinite (cache : List (String × GeoCacheEntry)) : Prop :=
  ∀ e ∈ cache, e.2.data.lat.isSome = true ∧ e.2.data.lon.isSome = true

def cacheFreshHit (cache : List (String × GeoCacheEntry)) (q : String) (now : Int) : Prop :=
  ∃ e, cache.lookup q = some e ∧ now < e.expiresAt

/-- Timestamps whose number form stays inside the `Date` range (outside it
`toISOString` throws, uncaught). -/
def tsBenign (v : JSVal) : Prop :=
  ∀ q : ℚ, v = .num (some q) → q.num.natAbs ≤ 8640000000000000 * q.den

def rowBenign (r : JSVal) : Prop :=
  r ≠ .null ∧ r ≠ .undef ∧ tsBenign (pdxTsRawOf r)

def jsonRecognized (json : JSVal) : Prop :=
  isArr json = true ∨ isArr (propOf json "incidents") = true ∨
    isArr (propOf json "features") = true

def jsonBenign (json : JSVal) : Prop :=
  (isArr json = true → ∀ r ∈ arrOf json, rowBenign r) ∧
  (isArr json = false → isArr (propOf json "incidents") = true →
    ∀ r ∈ arrOf (propOf json "incidents"), rowBenign r) ∧
  (isArr json = false → isArr (propOf json "incidents") = false →
    isArr (propOf json "features") = true →
    ∀ f ∈ arrOf (propOf json "features"),
      f ≠ .null ∧ f ≠ .undef ∧ tsBenign (pdxTsRawOf (mergedFeature f)))

theorem charOfNat_toNat_32 (c : Char) (h1 : 65 ≤ c.toNat) (h2 : c.toNat ≤ 90) :
    (Char.ofNat (c.toNat + 32)).toNat = c.toNat + 32 := by
  generalize hn : c.toNat = n at h1 h2
  interval_cases n <;> decide

theorem toLower_eq_of_not (c : Char) (h : ¬(65 ≤ c.toNat ∧ c.toNat ≤ 90)) :
    c.toLower = c := by
  unfold Char.toLower
  rw [if_neg h]

theorem toLower_toNat_of (c : Char) (h : 65 ≤ c.toNat ∧ c.toNat ≤ 90) :
    c.toLower.toNat = c.toNat + 32 := by
  unfold Char.toLower
  rw [if_pos h]
  exact charOfNat_toNat_32 c h.1 h.2

theorem toLower_idem (c : Char) : c.toLower.toLower = c.toLower := by
  by_cases h : 65 ≤ c.toNat ∧ c.toNat ≤ 90
  · refine toLower_eq_of_not _ ?_
    rw [toLower_toNat_of c h]
    omega
  · rw [toLower_eq_of_not c h]
    exact toLower_eq_of_not c h

theorem isJsWs_toLower (c : Char) : isJsWs c.toLower = isJsWs c := by
  by_cases h : 65 ≤ c.toNat ∧ c.toNat ≤ 90
  · have hx := toLower_toNat_of c h
    simp only [isJsWs, hx, decide_eq_decide]
    omega
  · rw [toLower_eq_of_not c h]

theorem lowerList_isJsWs_comm (l : List Char) :
    (lowerList l).dropWhile isJsWs = lowerList (l.dropWhile isJsWs) := by
  induction l with
  | nil => rfl
  | cons c cs ih =>
    simp only [lowerList, List.map_cons, List.dropWhile_cons, isJsWs_toLower]
    by_cases h : isJsWs c
    · simpa [h] using ih
    · simp [h, lowerList]

theorem dropWhile_self_of_headOk {l : List Char} (h : headOk l) :
    l.dropWhile isJsWs = l := by
  cases l with
  | nil => rfl
  | cons c cs =>
    have hc : isJsWs c = false := h c rfl
    simp [List.dropWhile_cons, hc]

theorem headOk_dropWhile (l : List Char) : headOk (l.dropWhile isJsWs) := by
  intro c hc
  have := List.head?_dropWhile_not isJsWs l
  rw [Option.mem_def] at hc
  rw [hc] at this
  simpa using this

theorem lastOk_rdropWhile (l : List Char) : lastOk (l.rdropWhile isJsWs) := by
  intro c hc
  unfold List.rdropWhile at hc
  rw [Option.mem_def, List.getLast?_reverse] at hc
  have := List.head?_dropWhile_not isJsWs l.reverse
  rw [hc] at this
  simpa using this

theorem rdropWhile_self_of_lastOk {l : List Char} (h : lastOk l) :
    l.rdropWhile isJsWs = l := by
  unfold List.rdropWhile
  have : headOk l.reverse := by
    intro c hc
    rw [Option.mem_def, List.head?_reverse] at hc
    exact h c hc
  rw [dropWhile_self_of_headOk this, List.reverse_reverse]

theorem headOk_rdropWhile_of_headOk {l : List Char} (h : headOk l) :
    headOk (l.rdropWhile isJsWs) := by
  obtain ⟨t, ht⟩ := List.rdropWhile_prefix isJsWs l
  intro c hc
  cases hr : l.rdropWhile isJsWs with
  | nil => rw [hr] at hc; simp at hc
  | cons d ds =>
    rw [hr] at hc ht
    rw [Option.mem_def] at hc
    simp only [List.head?_cons, Option.some.injEq] at hc
    have hd : isJsWs d = false := h d (by rw [← ht]; rfl)
    rw [← hc]
    exact hd

theorem headOk_jsTrim (l : List Char) : headOk (jsTrim l) :=
  headOk_rdropWhile_of_headOk (headOk_dropWhile l)

theorem lastOk_jsTrim (l : List Char) : lastOk (jsTrim l) := lastOk_rdropWhile _

theorem jsTrim_self {l : List Char} (h1 : headOk l) (h2 : lastOk l) : jsTrim l = l := by
  unfold jsTrim
  rw [dropWhile_self_of_headOk h1, rdropWhile_self_of_lastOk h2]

-- collapse properties
theorem collapseAux_false_ne_nil {l : List Char} (h : l ≠ []) :
    collapseWsAux false l ≠ [] := by
  cases l with
  | nil => exact absurd rfl h
  | cons c cs =>
    simp only [collapseWsAux]
    split <;> simp

theorem collapseAux_ne_nil {l : List Char} (b : Bool)
    (h : ∃ x ∈ l, isJsWs x = false) : collapseWsAux b l ≠ [] := by
  induction l generalizing b with
  | nil => obtain ⟨x, hx, _⟩ := h; exact absurd hx (by simp)
  | cons c cs ih =>
    simp only [collapseWsAux]
    by_cases hc : isJsWs c
    · rw [if_pos hc]
      obtain ⟨x, hx, hxw⟩ := h
      rcases List.mem_cons.mp hx with hx | hx
      · rw [hx] at hxw; rw [hxw] at hc; exact absurd hc (by simp)
      · have := ih true ⟨x, hx, hxw⟩
        intro hcontra
        exact this (by simpa using (List.append_eq_nil.mp hcontra).2)
    · rw [if_neg hc]; simp

theorem collapseAux_cons_ws {c : Char} {cs : List Char} (b : Bool) (h : isJsWs c = true) :
    collapseWsAux b (c :: cs) =
      (if b then [] else [' ']) ++ collapseWsAux true cs := by
  simp only [collapseWsAux, h, if_true]

theorem collapseAux_cons_not {c : Char} {cs : List Char} (b : Bool) (h : isJsWs c = false) :
    collapseWsAux b (c :: cs) = c :: collapseWsAux false cs := by
  simp only [collapseWsAux, h]
  simp

theorem lastOk_collapseAux {l : List Char} (b : Bool) (h : lastOk l) :
    lastOk (collapseWsAux b l) := by
  induction l generalizing b with
  | nil => intro c hc; simp [collapseWsAux] at hc
  | cons c cs ih =>
    cases cs with
    | nil =>
      have hc : isJsWs c = false := h c rfl
      rw [collapseAux_cons_not b hc]
      intro d hd
      have hz : collapseWsAux false ([] : List Char) = [] := rfl
      rw [Option.mem_def, hz, List.getLast?_singleton, Option.some.injEq] at hd
      rw [← hd]; exact hc
    | cons e es =>
      have hcs : lastOk (e :: es) := by
        intro d hd
        refine h d ?_
        rw [Option.mem_def] at hd ⊢
        rw [List.getLast?_cons_cons]
        exact hd
      have hnn : (e :: es) ≠ [] := by simp
      have hne : ∃ x ∈ (e :: es), isJsWs x = false :=
        ⟨(e :: es).getLast hnn, List.getLast_mem hnn, hcs _ (List.getLast_mem_getLast? hnn)⟩
      by_cases hw : isJsWs c
      · rw [collapseAux_cons_ws b hw]
        intro d hd
        cases hX : collapseWsAux true (e :: es) with
        | nil => exact absurd hX (collapseAux_ne_nil true hne)
        | cons y ys =>
          rw [Option.mem_def, hX, List.getLast?_append,
            List.getLast?_eq_getLast (y :: ys) (by simp), Option.or_some] at hd
          refine ih true hcs d ?_
          rw [Option.mem_def, hX, List.getLast?_eq_getLast (y :: ys) (by simp)]
          exact hd
      · rw [collapseAux_cons_not b (by simpa using hw)]
        intro d hd
        cases hX : collapseWsAux false (e :: es) with
        | nil => exact absurd hX (collapseAux_false_ne_nil hnn)
        | cons y ys =>
          rw [Option.mem_def, hX, List.getLast?_cons_cons] at hd
          refine ih false hcs d ?_
          rw [Option.mem_def, hX]
          exact hd

theorem headOk_collapseAux_true (l : List Char) :
    ∀ c ∈ (collapseWsAux true l).head?, isJsWs c = false := by
  induction l with
  | nil => intro c hc; simp [collapseWsAux] at hc
  | cons c cs ih =>
    by_cases hw : isJsWs c
    · rw [collapseAux_cons_ws true hw]
      simpa using ih
    · rw [collapseAux_cons_not true (by simpa using hw)]
      intro d hd
      rw [Option.mem_def, List.head?_cons, Option.some.injEq] at hd
      rw [← hd]
      simpa using hw

theorem noWsRun_collapseAux (l : List Char) (b : Bool) :
    noWsRun (collapseWsAux b l) := by
  induction l generalizing b with
  | nil => exact trivial
  | cons c cs ih =>
    by_cases hw : isJsWs c
    · rw [collapseAux_cons_ws b hw]
      cases b with
      | true => simpa using ih true
      | false =>
        refine ⟨fun _ => ⟨rfl, headOk_collapseAux_true cs⟩, ?_⟩
        simpa using ih true
    · rw [collapseAux_cons_not b (by simpa using hw)]
      exact ⟨fun hcontra => absurd hcontra (by simpa using hw), ih false⟩

theorem collapseAux_true_eq_false_of_headOk {l : List Char}
    (h : ∀ c ∈ l.head?, isJsWs c = false) :
    collapseWsAux true l = collapseWsAux false l := by
  cases l with
  | nil => rfl
  | cons c cs =>
    have hc : isJsWs c = false := h c rfl
    rw [collapseAux_cons_not true hc, collapseAux_cons_not false hc]

theorem collapse_self_of_noWsRun {l : List Char} (h : noWsRun l) :
    collapseWsAux false l = l := by
  induction l with
  | nil => rfl
  | cons c cs ih =>
    obtain ⟨h1, h2⟩ := h
    by_cases hw : isJsWs c
    · obtain ⟨hsp, hhd⟩ := h1 hw
      rw [collapseAux_cons_ws false hw]
      rw [collapseAux_true_eq_false_of_headOk hhd, ih h2, hsp]
      rfl
    · rw [collapseAux_cons_not false (by simpa using hw), ih h2]

theorem collapseWs_idem (l : List Char) : collapseWs (collapseWs l) = collapseWs l :=
  collapse_self_of_noWsRun (noWsRun_collapseAux l false)

theorem headOk_collapseWs_of_headOk {l : List Char} (h : headOk l) :
    headOk (collapseWs l) := by
  cases l with
  | nil => intro c hc; simp [collapseWs, collapseWsAux] at hc
  | cons c cs =>
    have hc : isJsWs c = false := h c rfl
    unfold collapseWs
    rw [collapseAux_cons_not false hc]
    intro d hd
    rw [Option.mem_def, List.head?_cons, Option.some.injEq] at hd
    rw [← hd]; exact hc

-- commuting toLowerCase with the other passes
theorem lowerList_reverse (l : List Char) :
    (lowerList l).reverse = lowerList l.reverse := by
  simp [lowerList, List.map_reverse]

theorem rdropWhile_lowerList (l : List Char) :
    (lowerList l).rdropWhile isJsWs = lowerList (l.rdropWhile isJsWs) := by
  unfold List.rdropWhile
  rw [lowerList_reverse, lowerList_isJsWs_comm, lowerList_reverse]

theorem jsTrim_lowerList (l : List Char) :
    jsTrim (lowerList l) = lowerList (jsTrim l) := by
  unfold jsTrim
  rw [lowerList_isJsWs_comm, rdropWhile_lowerList]

theorem collapseAux_lowerList (l : List Char) (b : Bool) :
    collapseWsAux b (lowerList l) = lowerList (collapseWsAux b l) := by
  induction l generalizing b with
  | nil => rfl
  | cons c cs ih =>
    by_cases hw : isJsWs c
    · have hw2 : isJsWs c.toLower = true := by rw [isJsWs_toLower]; exact hw
      show collapseWsAux b (c.toLower :: lowerList cs) = _
      rw [collapseAux_cons_ws b hw2, collapseAux_cons_ws b hw, ih true]
      cases b with
      | true => rfl
      | false =>
        show ' ' :: _ = lowerList (' ' :: _)
        show ' ' :: _ = ' '.toLower :: _
        rfl
    · have hwf : isJsWs c = false := by simpa using hw
      have hw2 : isJsWs c.toLower = false := by rw [isJsWs_toLower]; exact hwf
      show collapseWsAux b (c.toLower :: lowerList cs) = _
      rw [collapseAux_cons_not b hw2, collapseAux_cons_not b hwf, ih false]
      rfl

theorem lowerList_idem (l : List Char) : lowerList (lowerList l) = lowerList l := by
  simp only [lowerList, List.map_map]
  exact List.map_congr_left (fun c _ => toLower_idem c)

/-- C9: `normalizeAddress` (trim, collapse internal whitespace runs to one
space, lowercase) is idempotent: applying it twice equals applying it
once. -/
theorem normalizeAddress_idem (s : String) :
    normalizeAddress (normalizeAddress s) = normalizeAddress s := by
  unfold normalizeAddress
  have hdata : (String.mk (lowerList (collapseWs (jsTrim s.data)))).data
      = lowerList (collapseWs (jsTrim s.data)) := rfl
  rw [hdata]
  have hu : jsTrim (jsTrim s.data) = jsTrim s.data :=
    jsTrim_self (headOk_jsTrim _) (lastOk_jsTrim _)
  have htrimfix : jsTrim (collapseWs (jsTrim s.data)) = collapseWs (jsTrim s.data) := by
    refine jsTrim_self ?_ ?_
    · exact headOk_collapseWs_of_headOk (headOk_jsTrim _)
    · exact lastOk_collapseAux false (lastOk_jsTrim _)
  rw [jsTrim_lowerList, htrimfix]
  show String.mk (lowerList (collapseWsAux false (lowerList (collapseWs (jsTrim s.data))))) = _
  rw [collapseAux_lowerList]
  show String.mk (lowerList (lowerList (collapseWs (collapseWs (jsTrim s.data))))) = _
  rw [lowerList_idem, collapseWs_idem]

/-! ## A small backtracking regex matcher

The source code applies a fixed set of JS regex literals via `.replace`,
`.match` and `.test`.  We embed them with an AST whose repetition operators
act on single-character classes (all the source patterns need), a
continuation-passing greedy backtracking matcher, leftmost-match search and
the JS replace semantics (scan the original string left to right, global
replace resumes after each match).
-/

/-- C1 (code_bug evidence): a JSON row whose only coordinates are
`lat="91"`, `lon="-122.4"` sails through the pdx pipeline — `Number("91")`
is finite and no adapter checks the `[-90, 90]` range — so the emitted
CanonicalPlace has `lat = 91 > 90`; likewise the sf `extractCoords` accepts
the pair `latitude="91"`, `longitude="-122.41"` as finite coordinates. -/
theorem c1_out_of_range_latitude_emitted :
    (parseJSONVariant noDateParse defaultRands (.arr [c1Row91])).map
        (fun rows => (pdxCore noOracle rows).map (fun p => (p.lat, p.lon)))
      = .ok [((91 : ℚ), mkRat (-1224) 10)] ∧
    ¬((91 : ℚ) ≤ 90) ∧
    extractCoords c1SfRow91 = (some 91, some (mkRat (-12241) 100)) := by
  refine ⟨by rfl, by decide, by decide⟩

/-- C2 (counterexample): when the first geocode result is finite but too
far and the forced-Nashville retry throws, the catch swallows everything
and the key is absent from the result map — the original result is
discarded, contradicting "kept in the result map, never discarded". -/
theorem c2_retry_throw_discards_original :
    c2Oracle c2Addr = some c2Far ∧
    nashvilleWorker c2TooFar c2Oracle c2Addr = none := by
  refine ⟨by decide, by decide⟩

/-- C4 (counterexample): in the pdx places assembly, a record without
native coordinates takes `address = g.formatted || address`, so the
geocoder's formatted label "Geocoderville 1" — which appears nowhere in the
feed row — becomes the displayed address. -/
theorem c4_pdx_uses_geocoder_formatted :
    (pdxCore c4Oracle [c4Row]).map (fun p => p.address) = [some "Geocoderville 1"] ∧
    c4Row.address = some "123 Main St" ∧
    c4Geo.formatted = some "Geocoderville 1" ∧
    withCityStatePdx c4Row.address = "123 Main St, Portland, OR" := by
  refine ⟨by decide, rfl, rfl, by decide⟩

/-- C6 (code_bug evidence): on the spec's scenario description the
sub-parser recovers the incident id and the Pacific-daylight instant as
claimed, but `cleanAddress` keeps a trailing comma: the `\s*,\s*` → `", "`
normalization leaves `"123 Main St, "`, which the later `/^,|,$/` strip no
longer matches, and the final trim only removes the space. -/
theorem c6_kml_description_scenario :
    parseKmlDescription c6Desc =
      { cleanAddress := "123 Main St,", incidentId := some "PP1",
        updatedAt := some "2025-08-17T23:20:00.000Z" } ∧
    "123 Main St," ≠ "123 Main St" := by
  refine ⟨by decide, by decide⟩

/-- C8 (counterexample): `parseJSONVariant` on the JSON array `[null]`
throws — `r.id` on a null row is a TypeError. -/
theorem c8_json_parser_throws_on_null_row :
    parseJSONVariant noDateParse defaultRands (.arr [.null]) = .error () := by
  rfl

-- dedup-map lemmas shared by the adapters
theorem lookup_isNone_iff_not_mem_keys (m : List (String × String)) (k : String) :
    (m.lookup k).isNone = true ↔ k ∉ m.map Prod.fst := by
  rw [Option.isNone_iff_eq_none, List.lookup_eq_none_iff]
  constructor
  · intro h hk
    obtain ⟨p, hp, hpk⟩ := List.mem_map.mp hk
    have h2 := h p hp
    rw [bne_iff_ne] at h2
    exact h2 hpk.symm
  · intro h p hp
    rw [bne_iff_ne]
    intro hk
    exact h (List.mem_map.mpr ⟨p, hp, hk.symm⟩)

theorem uniqInsert_keys (m : List (String × String)) (orig : String) :
    (uniqInsert m orig).map Prod.fst =
      if normalizeAddress orig ≠ "" ∧ (m.lookup (normalizeAddress orig)).isNone
      then m.map Prod.fst ++ [normalizeAddress orig] else m.map Prod.fst := by
  simp only [uniqInsert]
  by_cases hcond : normalizeAddress orig ≠ "" ∧
      (m.lookup (normalizeAddress orig)).isNone = true
  · rw [if_pos hcond, if_pos hcond]
    simp
  · rw [if_neg hcond, if_neg hcond]

theorem uniqFold_keys_nodup {α : Type} (f : α → String) (l : List α) :
    ∀ m : List (String × String), (m.map Prod.fst).Nodup →
      ((l.foldl (fun acc x => uniqInsert acc (f x)) m).map Prod.fst).Nodup := by
  induction l with
  | nil => intro m hm; exact hm
  | cons x xs ih =>
    intro m hm
    simp only [List.foldl_cons]
    refine ih (uniqInsert m (f x)) ?_
    rw [uniqInsert_keys]
    split
    · rename_i hcond
      have hnot := (lookup_isNone_iff_not_mem_keys m (normalizeAddress (f x))).mp
        (by simpa using hcond.2)
      simp [List.nodup_append, hm, hnot]
    · exact hm

theorem uniqFold_keys_mem {α : Type} (f : α → String) (l : List α) :
    ∀ (m : List (String × String)) (q : String),
      (q ∈ (l.foldl (fun acc x => uniqInsert acc (f x)) m).map Prod.fst ↔
        q ∈ m.map Prod.fst ∨ (q ≠ "" ∧ ∃ x ∈ l, normalizeAddress (f x) = q)) := by
  induction l with
  | nil => intro m q; simp
  | cons x xs ih =>
    intro m q
    simp only [List.foldl_cons]
    rw [ih, uniqInsert_keys]
    constructor
    · rintro (hq | hq)
      · split at hq
        · rename_i hcond
          rcases List.mem_append.mp hq with h | h
          · exact Or.inl h
          · rcases List.mem_singleton.mp h with rfl
            exact Or.inr ⟨hcond.1, x, by simp, rfl⟩
        · exact Or.inl hq
      · obtain ⟨y, hy, hyq⟩ := hq.2
        exact Or.inr ⟨hq.1, y, by simp [hy], hyq⟩
    · rintro (hq | ⟨hne, y, hy, hyq⟩)
      · left
        split
        · exact List.mem_append.mpr (Or.inl hq)
        · exact hq
      · rcases List.mem_cons.mp hy with rfl | hy2
        · subst hyq
          by_cases hmem : normalizeAddress (f y) ∈ m.map Prod.fst
          · left
            split
            · exact List.mem_append.mpr (Or.inl hmem)
            · exact hmem
          · left
            rw [if_pos ⟨hne, (lookup_isNone_iff_not_mem_keys m _).mpr hmem⟩]
            exact List.mem_append.mpr (Or.inr (by simp))
        · exact Or.inr ⟨hne, y, hy2, hyq⟩

/-- C3: the pdx dedup map has pairwise-distinct normalized keys, its key set
is exactly the set of non-empty normalized queries of records needing
geocoding (so `mapWithConcurrency` over `uniqueKeys` issues at most one
resolver call per distinct normalized query, however many records share
it), and the case/whitespace scenario triggers exactly one call.  The
Nashville dedup step (`nashUniqueMap`) is the same `uniqInsert` fold. -/
theorem c3_geocode_dedup :
    (∀ rows : List PdxRow,
      ((pdxUniqueMap rows).map Prod.fst).Nodup ∧
      ∀ q, q ∈ (pdxUniqueMap rows).map Prod.fst ↔
        (q ≠ "" ∧ ∃ r ∈ pdxNeedGeo rows, normalizeAddress (r.address.getD "") = q)) ∧
    pdxGeocodeCalls [c3RowA, c3RowB] = ["5th Ave, Portland, OR"] := by
  constructor
  · intro rows
    constructor
    · exact uniqFold_keys_nodup _ _ [] (by simp)
    · intro q
      rw [show pdxUniqueMap rows =
        (pdxNeedGeo rows).foldl (fun acc r => uniqInsert acc (r.address.getD "")) [] from rfl]
      rw [uniqFold_keys_mem]
      simp
  · decide

-- pdx coordinate-selection lemmas
theorem pdxPlaceOfRow_native (geo : List (String × GeoRes)) (r : PdxRow)
    (h : (finQ r.lat && finQ r.lon) = true) :
    pdxPlaceOfRow geo r = some
      { id := r.id
        name := if r.name ≠ "" then r.name else "Incident"
        category := if jsTruthy r.category then some (jsToString r.category) else none
        lat := r.lat.getD 0
        lon := r.lon.getD 0
        address := r.address
        callTimeReceived := r.updatedAt
        extrasTypeCode := r.extras.incidentTypeCode
        extrasTypeName :=
          if jsTruthy r.extras.incidentTypeName then r.extras.incidentTypeName
          else .str r.name
        extrasIncidentId := r.extras.incidentId } := by
  rw [Bool.and_eq_true] at h
  obtain ⟨la, hla⟩ := Option.isSome_iff_exists.mp h.1
  obtain ⟨lo, hlo⟩ := Option.isSome_iff_exists.mp h.2
  simp [pdxPlaceOfRow, hla, hlo, finQ]

theorem pdxPlaceOfRow_not_native (geo : List (String × GeoRes)) (r : PdxRow)
    (p : PdxPlace) (h : (finQ r.lat && finQ r.lon) = false)
    (hp : pdxPlaceOfRow geo r = some p) :
    ∃ g, truthyStr r.address = true ∧
      geo.lookup (normalizeAddress (r.address.getD "")) = some g ∧
      g.lat = some p.lat ∧ g.lon = some p.lon := by
  have hnone : r.lat = none ∨ r.lon = none := by
    rcases Bool.and_eq_false_iff.mp h with h1 | h1
    · exact Or.inl (Option.not_isSome_iff_eq_none.mp (by simpa [finQ] using h1))
    · exact Or.inr (Option.not_isSome_iff_eq_none.mp (by simpa [finQ] using h1))
  by_cases ha : truthyStr r.address
  · rw [pdxPlaceOfRow] at hp
    rw [show (!(finQ r.lat && finQ r.lon) && truthyStr r.address) = true from by
      simp [h, ha]] at hp
    simp only [if_true] at hp
    cases hg : geo.lookup (normalizeAddress (r.address.getD "")) with
    | none =>
      rw [hg] at hp
      dsimp only at hp
      rcases hnone with h2 | h2
      · rw [h2] at hp; simp at hp
      · cases hx : r.lat with
        | none => rw [hx] at hp; simp at hp
        | some v => rw [hx, h2] at hp; simp at hp
    | some g =>
      rw [hg] at hp
      dsimp only at hp
      cases hgl : g.lat with
      | none => rw [hgl] at hp; simp at hp
      | some la =>
        cases hglo : g.lon with
        | none => rw [hgl, hglo] at hp; simp at hp
        | some lo =>
          rw [hgl, hglo] at hp
          simp only [Option.some.injEq] at hp
          refine ⟨g, ha, rfl, ?_, ?_⟩
          · rw [hgl, ← hp]
          · rw [hglo, ← hp]
  · rw [pdxPlaceOfRow] at hp
    rw [show (!(finQ r.lat && finQ r.lon) && truthyStr r.address) = false from by
      simp [Bool.eq_false_iff.mpr ha]] at hp
    simp only [Bool.false_eq_true, if_false] at hp
    rcases hnone with h2 | h2
    · rw [h2] at hp
      simp at hp
    · cases hx : r.lat with
      | none => rw [hx] at hp; simp at hp
      | some v => rw [hx, h2] at hp; simp at hp

theorem pdxPlaceOfRow_drop (geo : List (String × GeoRes)) (r : PdxRow)
    (h : (finQ r.lat && finQ r.lon) = false)
    (hgeo : truthyStr r.address = false ∨
      ∀ g, geo.lookup (normalizeAddress (r.address.getD "")) = some g →
        (finQ g.lat && finQ g.lon) = false) :
    pdxPlaceOfRow geo r = none := by
  cases hp : pdxPlaceOfRow geo r with
  | none => rfl
  | some p =>
    obtain ⟨g, hta, hlook, hgl, hglo⟩ := pdxPlaceOfRow_not_native geo r p h hp
    rcases hgeo with h2 | h2
    · rw [hta] at h2; exact absurd h2 (by simp)
    · have := h2 g hlook
      rw [hgl, hglo] at this
      simp [finQ] at this

theorem pdxPlaces_eq_filterMap (geo : List (String × GeoRes)) (rows : List PdxRow) :
    pdxPlaces geo rows = rows.filterMap (pdxPlaceOfRow geo) := by
  induction rows with
  | nil => rfl
  | cons r rs ih =>
    simp only [pdxPlaces, List.filterMap_cons]
    cases pdxPlaceOfRow geo r <;> simp [ih]

/-- C5: per extracted record the pipeline prefers finite native coordinates
(emitting them verbatim, untouched by any geocode result), falls back to the
geocoded result of the record's normalized query otherwise, drops the record
when neither yields finite coordinates, and the batch output is exactly the
per-record selection mapped over the rows. -/
theorem c5_native_coordinates_priority :
    (∀ (geo : List (String × GeoRes)) (r : PdxRow) (p : PdxPlace),
        (finQ r.lat && finQ r.lon) = true → pdxPlaceOfRow geo r = some p →
        p.lat = r.lat.getD 0 ∧ p.lon = r.lon.getD 0 ∧ p.address = r.address) ∧
    (∀ (geo : List (String × GeoRes)) (r : PdxRow),
        (finQ r.lat && finQ r.lon) = true →
        (pdxPlaceOfRow geo r).isSome = true) ∧
    (∀ (geo : List (String × GeoRes)) (r : PdxRow) (p : PdxPlace),
        (finQ r.lat && finQ r.lon) = false → pdxPlaceOfRow geo r = some p →
        ∃ g, truthyStr r.address = true ∧
          geo.lookup (normalizeAddress (r.address.getD "")) = some g ∧
          g.lat = some p.lat ∧ g.lon = some p.lon) ∧
    (∀ (geo : List (String × GeoRes)) (r : PdxRow),
        (finQ r.lat && finQ r.lon) = false →
        (truthyStr r.address = false ∨
          ∀ g, geo.lookup (normalizeAddress (r.address.getD "")) = some g →
            (finQ g.lat && finQ g.lon) = false) →
        pdxPlaceOfRow geo r = none) ∧
    (∀ (geo : List (String × GeoRes)) (rows : List PdxRow),
        pdxPlaces geo rows = rows.filterMap (pdxPlaceOfRow geo)) := by
  refine ⟨?_, ?_, pdxPlaceOfRow_not_native, pdxPlaceOfRow_drop, pdxPlaces_eq_filterMap⟩
  · intro geo r p h hp
    rw [pdxPlaceOfRow_native geo r h] at hp
    simp only [Option.some.injEq] at hp
    rw [← hp]
    exact ⟨rfl, rfl, rfl⟩
  · intro geo r h
    rw [pdxPlaceOfRow_native geo r h]
    rfl

/-- C5 witness: a row with finite native coordinates `(1, 2)` keeps them. -/
theorem c5_witness :
    (finQ c5RowNative.lat && finQ c5RowNative.lon) = true ∧
    c5PlaceNative.lat = c5RowNative.lat.getD 0 ∧
    c5PlaceNative.lon = c5RowNative.lon.getD 0 ∧
    c5PlaceNative.address = c5RowNative.address :=
  ⟨by decide, c5_native_coordinates_priority.1 [] c5RowNative c5PlaceNative (by decide) rfl⟩

/-- C2 (amended): characterization of the Nashville sanity-retry worker.
When the first geocode result is finite and beyond the radius
(`tooFar`), a second geocode of `forceNashville original` is issued and its
result replaces the first exactly when it is finite and within the radius;
an out-of-radius retry result leaves the original in place; but if the
retry call itself throws, the catch swallows it and the query is absent
from the result map (the original is discarded).  When the first result is
not both finite and too far, it is kept unconditionally. -/
theorem c2_sanity_retry_characterization :
    ∀ (tooFar : ℚ → ℚ → Bool) (oracle : String → Option GeoRes)
      (original : String) (g : GeoRes),
      oracle original = some g →
      (((finQ g.lat && finQ g.lon && tooFar (g.lat.getD 0) (g.lon.getD 0)) = false →
          nashvilleWorker tooFar oracle original = some g) ∧
        ((finQ g.lat && finQ g.lon && tooFar (g.lat.getD 0) (g.lon.getD 0)) = true →
          nashvilleWorker tooFar oracle original =
            (match oracle (forceNashville original) with
             | none => none
             | some g2 =>
               if finQ g2.lat && finQ g2.lon &&
                   !tooFar (g2.lat.getD 0) (g2.lon.getD 0) then some g2
               else some g))) := by
  intro tooFar oracle original g hg
  constructor
  · intro hfar
    rw [nashvilleWorker, hg]
    dsimp only
    rw [hfar]
    simp
  · intro hfar
    rw [nashvilleWorker, hg]
    dsimp only
    rw [hfar]
    simp

/-- C2 witness: with the first result too far and the retry in radius, the
retry result replaces the original in the result map. -/
theorem c2_witness :
    c2OracleW c2Addr = some c2Far ∧
    nashvilleWorker c2TooFarW c2OracleW c2Addr = some c2Near :=
  ⟨rfl, by
    have h := (c2_sanity_retry_characterization c2TooFarW c2OracleW c2Addr c2Far rfl).2
      (by decide)
    rw [h]
    decide⟩

-- nashville assembly lemmas
theorem nashPlaces_mem (geo : List (String × GeoRes)) (l : List NashPrelim)
    (p : NashPlace) (hp : p ∈ nashPlaces geo l) :
    ∃ r ∈ l, nashPlaceOfRow geo r = some p := by
  induction l with
  | nil => simp [nashPlaces] at hp
  | cons r rs ih =>
    rw [nashPlaces] at hp
    cases hr : nashPlaceOfRow geo r with
    | none =>
      rw [hr] at hp
      obtain ⟨x, hx, hxp⟩ := ih hp
      exact ⟨x, by simp [hx], hxp⟩
    | some q =>
      rw [hr] at hp
      rcases List.mem_cons.mp hp with rfl | hp2
      · exact ⟨r, by simp, hr⟩
      · obtain ⟨x, hx, hxp⟩ := ih hp2
        exact ⟨x, by simp [hx], hxp⟩

theorem nashPlaceOfRow_address (geo : List (String × GeoRes)) (r : NashPrelim)
    (p : NashPlace) (hp : nashPlaceOfRow geo r = some p) :
    p.address = r.displayAddress := by
  rw [nashPlaceOfRow] at hp
  rcases hv : (if r.displayAddress ≠ "" then
      geo.lookup (normalizeAddress r.displayAddress) else none) with _ | g
  · rw [hv] at hp; simp at hp
  · rw [hv] at hp
    dsimp only at hp
    by_cases hfin : (finQ g.lat && finQ g.lon) = true
    · rw [if_pos hfin] at hp
      simp only [Option.some.injEq] at hp
      rw [← hp]
    · rw [if_neg hfin] at hp
      simp at hp

theorem traverseExcept_mem {α β : Type} (f : Nat → α → Except Unit β) :
    ∀ (xs : List α) (i : Nat) (ys : List β),
      traverseExcept f i xs = .ok ys →
      ∀ y ∈ ys, ∃ j x, x ∈ xs ∧ f j x = .ok y := by
  intro xs
  induction xs with
  | nil =>
    intro i ys h y hy
    rw [traverseExcept] at h
    cases h
    simp at hy
  | cons x xs ih =>
    intro i ys h y hy
    rw [traverseExcept] at h
    cases hfx : f i x with
    | error e =>
      rw [hfx] at h
      simp only [Bind.bind, Except.bind] at h
      exact Except.noConfusion h
    | ok z =>
      rw [hfx] at h
      cases hrest : traverseExcept f (i + 1) xs with
      | error e =>
        rw [hrest] at h
        simp only [Bind.bind, Except.bind] at h
        exact Except.noConfusion h
      | ok zs =>
        rw [hrest] at h
        simp only [Bind.bind, Except.bind, Except.ok.injEq] at h
        subst h
        rcases List.mem_cons.mp hy with rfl | hy2
        · exact ⟨i, x, by simp, hfx⟩
        · obtain ⟨j, w, hw, hjw⟩ := ih (i + 1) zs hrest y hy2
          exact ⟨j, w, by simp [hw], hjw⟩

theorem nashPrelim_display (dateParse : String → Option String)
    (rands : Nat → String) (features : List JSVal) (prelim : List NashPrelim)
    (h : nashPrelimOf dateParse rands features = .ok prelim) :
    ∀ r ∈ prelim, ∃ f ∈ features, r.displayAddress = nashDisplayOf f := by
  intro r hr
  obtain ⟨j, f, hf, hjf⟩ := traverseExcept_mem _ features 0 prelim h r hr
  refine ⟨f, hf, ?_⟩
  dsimp only at hjf
  cases h1 : toISONash dateParse (extractUpdatedAtRaw
      (jsOrElse (propOf f "properties") (.obj []))) with
  | error e =>
    rw [h1] at hjf
    simp only [Bind.bind, Except.bind] at hjf
    exact Except.noConfusion hjf
  | ok u =>
    cases h2 : toISONash dateParse (extractCallTimeReceivedRaw
        (jsOrElse (propOf f "properties") (.obj []))) with
    | error e =>
      rw [h1, h2] at hjf
      simp only [Bind.bind, Except.bind] at hjf
      exact Except.noConfusion hjf
    | ok v =>
      rw [h1, h2] at hjf
      simp only [Bind.bind, Except.bind, Except.ok.injEq] at hjf
      rw [← hjf]
      rfl

/-- C4 (amended): the Nashville adapter's displayed address is always the
record's `displayAddress`, built from the feed's own street fields and the
city display policy (`nashDisplayOf`), for every geocode oracle — the
geocoder's `formatted` output never reaches it.  (The Portland adapter and
the bbox SF variant, by contrast, do surface `g.formatted`; see the
counterexample.) -/
theorem c4_nashville_address_from_feed_only :
    ∀ (dateParse : String → Option String) (rands : Nat → String)
      (features : List JSVal) (prelim : List NashPrelim)
      (tooFar : ℚ → ℚ → Bool) (oracle : String → Option GeoRes) (p : NashPlace),
      nashPrelimOf dateParse rands features = .ok prelim →
      p ∈ nashCore tooFar oracle prelim →
      ∃ f ∈ features, p.address = nashDisplayOf f := by
  intro dateParse rands features prelim tooFar oracle p hpre hp
  obtain ⟨r, hr, hrp⟩ := nashPlaces_mem _ _ _ hp
  obtain ⟨f, hf, hdisp⟩ := nashPrelim_display dateParse rands features prelim hpre r hr
  exact ⟨f, hf, by rw [nashPlaceOfRow_address _ _ _ hrp, hdisp]⟩

/-- C4 witness: a concrete Nashville fetch whose emitted address equals the
feed-derived display address of its feature. -/
theorem c4_witness :
    ∃ f ∈ [c4Feature], c4NashPlace.address = nashDisplayOf f :=
  c4_nashville_address_from_feed_only noDateParse defaultRands [c4Feature]
    [c4NashPrelimRec] (fun _ _ => false) c4NashOracle c4NashPlace rfl
    (by rw [show nashCore (fun _ _ => false) c4NashOracle [c4NashPrelimRec]
        = [c4NashPlace] from rfl]; exact List.mem_singleton.mpr rfl)

-- sf bbox lemmas
theorem inSF_bounds {lat lon : Option ℚ} (h : inSF lat lon = true) :
    ∃ la lo, lat = some la ∧ lon = some lo ∧
      SF_MIN_LAT ≤ la ∧ la ≤ SF_MAX_LAT ∧ SF_MIN_LON ≤ lo ∧ lo ≤ SF_MAX_LON := by
  rw [inSF] at h
  by_cases hf : (finQ lat && finQ lon) = true
  · rw [Bool.and_eq_true] at hf
    obtain ⟨la, hla⟩ := Option.isSome_iff_exists.mp hf.1
    obtain ⟨lo, hlo⟩ := Option.isSome_iff_exists.mp hf.2
    rw [hla, hlo] at h ⊢
    simp only [finQ, Option.isSome_some, Bool.and_self, Bool.not_true,
      Bool.false_eq_true, if_false, ENFORCE_BBOX] at h
    simp only [Bool.not_true, Bool.false_eq_true, if_false, decide_eq_true_eq] at h
    simp only [Option.getD_some] at h
    exact ⟨la, lo, rfl, rfl, h.1, h.2.1, h.2.2.1, h.2.2.2⟩
  · rw [Bool.eq_false_iff.mpr hf] at h
    simp at h

theorem sfbGeoResults_inSF (oracle : String → Option GeoRes)
    (uniq : List (String × String)) :
    ∀ e ∈ sfbGeoResults oracle uniq, inSF e.2.lat e.2.lon = true := by
  rw [sfbGeoResults]
  suffices hgen : ∀ (l : List (String × String)) (res : List (String × GeoRes)),
      (∀ e ∈ res, inSF e.2.lat e.2.lon = true) →
      ∀ e ∈ l.foldl (fun res p =>
        match oracle p.2 with
        | some g => if inSF g.lat g.lon then res ++ [(p.1, g)] else res
        | none => res) res, inSF e.2.lat e.2.lon = true by
    exact hgen uniq [] (by simp)
  intro l
  induction l with
  | nil => intro res hres e he; exact hres e he
  | cons x xs ih =>
    intro res hres e he
    simp only [List.foldl_cons] at he
    refine ih _ ?_ e he
    cases hx : oracle x.2 with
    | none => simpa using hres
    | some g =>
      dsimp only
      by_cases hin : inSF g.lat g.lon = true
      · rw [if_pos hin]
        intro d hd
        rcases List.mem_append.mp hd with hd | hd
        · exact hres d hd
        · rcases List.mem_singleton.mp hd with rfl
          exact hin
      · rw [if_neg hin]
        exact hres

theorem sfbPlaceOfRow_bounds (geo : List (String × GeoRes)) (p : SfbPrelim)
    (q : SfbPlace) (hq : sfbPlaceOfRow geo p = some q) :
    SF_MIN_LAT ≤ q.lat ∧ q.lat ≤ SF_MAX_LAT ∧
      SF_MIN_LON ≤ q.lon ∧ q.lon ≤ SF_MAX_LON := by
  rw [sfbPlaceOfRow] at hq
  set sel := if !(finQ p.lat && finQ p.lon) && (p.geocodeQuery ≠ "") then
      match geo.lookup (normalizeAddress (withCityStateSf p.geocodeQuery)) with
      | some g => (g.lat, g.lon)
      | none => (p.lat, p.lon)
    else (p.lat, p.lon) with hsel
  by_cases hin : inSF sel.1 sel.2 = true
  · rw [if_neg (by simp [hin])] at hq
    obtain ⟨la, lo, hla, hlo, hb⟩ := inSF_bounds hin
    simp only [Option.some.injEq] at hq
    rw [← hq]
    simpa [hla, hlo] using hb
  · rw [if_pos (by simp [Bool.eq_false_iff.mpr hin])] at hq
    exact absurd hq (by simp)

theorem sfbPlaces_mem (geo : List (String × GeoRes)) (l : List SfbPrelim)
    (q : SfbPlace) (hq : q ∈ sfbPlaces geo l) :
    ∃ p ∈ l, sfbPlaceOfRow geo p = some q := by
  induction l with
  | nil => simp [sfbPlaces] at hq
  | cons p ps ih =>
    rw [sfbPlaces] at hq
    cases hp : sfbPlaceOfRow geo p with
    | none =>
      rw [hp] at hq
      obtain ⟨x, hx, hxq⟩ := ih hq
      exact ⟨x, by simp [hx], hxq⟩
    | some w =>
      rw [hp] at hq
      rcases List.mem_cons.mp hq with rfl | hq2
      · exact ⟨p, by simp, hp⟩
      · obtain ⟨x, hx, hxq⟩ := ih hq2
        exact ⟨x, by simp [hx], hxq⟩

/-- C10: with the default configuration (bbox enforcement on), a geocode
result enters the sf-variant result map only when it lies inside the box,
and every emitted place's coordinates satisfy
`37.55 ≤ lat ≤ 37.95`, `-122.60 ≤ lon ≤ -122.20`. -/
theorem c10_bbox_enforced :
    (∀ (oracle : String → Option GeoRes) (uniq : List (String × String)),
      ∀ e ∈ sfbGeoResults oracle uniq, inSF e.2.lat e.2.lon = true) ∧
    (∀ (oracle : String → Option GeoRes) (prelim : List SfbPrelim),
      ∀ q ∈ sfbCore oracle prelim,
        SF_MIN_LAT ≤ q.lat ∧ q.lat ≤ SF_MAX_LAT ∧
          SF_MIN_LON ≤ q.lon ∧ q.lon ≤ SF_MAX_LON) := by
  refine ⟨sfbGeoResults_inSF, ?_⟩
  intro oracle prelim q hq
  obtain ⟨p, _, hpq⟩ := sfbPlaces_mem _ _ _ hq
  exact sfbPlaceOfRow_bounds _ _ _ hpq

/-- C10 witness: a prelim record with native in-box coordinates is emitted
within the box. -/
theorem c10_witness :
    ∃ q ∈ sfbCore noOracle [c10Prelim],
      SF_MIN_LAT ≤ q.lat ∧ q.lat ≤ SF_MAX_LAT ∧
        SF_MIN_LON ≤ q.lon ∧ q.lon ≤ SF_MAX_LON := by
  have hrun : sfbCore noOracle [c10Prelim] = [c10Place] := rfl
  exact ⟨c10Place, by rw [hrun]; simp,
    c10_bbox_enforced.2 noOracle [c10Prelim] c10Place (by rw [hrun]; simp)⟩


/-! ## C7: the geocode resolver contract -/

theorem mem_of_lookup_pair {α β : Type} [BEq α] [LawfulBEq α]
    {m : List (α × β)} {k : α} {v : β} (h : m.lookup k = some v) : (k, v) ∈ m := by
  obtain ⟨l₁, l₂, rfl, -⟩ := List.lookup_eq_some_iff.mp h
  simp

theorem jsToNumber_isSome_of_isFiniteJS (v : JSVal) (h : isFiniteJS v = true) :
    (jsToNumber v).isSome = true := by
  cases v with
  | num o =>
    cases o with
    | none => simp [isFiniteJS] at h
    | some q => simp [jsToNumber]
  | null => simp [isFiniteJS] at h
  | undef => simp [isFiniteJS] at h
  | str s => simp [isFiniteJS] at h
  | bool b => simp [isFiniteJS] at h
  | arr xs => simp [isFiniteJS] at h
  | obj fs => simp [isFiniteJS] at h

theorem geocodeMiss_contract (ttlMs : Int) (cache : List (String × GeoCacheEntry))
    (now : Int) (q : String) (resp : Nat × JSVal)
    (hlen : (resultsArr resp.2).length ≤ 1) :
    ((∃ er, geocodeMiss ttlMs cache now q resp = .error er) ↔
      (400 ≤ resp.1 ∨ ¬∃ hit ∈ resultsArr resp.2, hitFinite hit = true)) ∧
    (∀ g c2, geocodeMiss ttlMs cache now q resp = .ok (g, c2) →
      g.lat.isSome = true ∧ g.lon.isSome = true) := by
  rw [geocodeMiss]
  by_cases hst : 400 ≤ resp.1
  · rw [if_pos hst]
    exact ⟨⟨fun _ => Or.inl hst, fun _ => ⟨.httpError resp.1, rfl⟩⟩,
      fun g c2 hg => Except.noConfusion hg⟩
  · rw [if_neg hst]
    have hhit : jsIndex (propOf resp.2 "results") 0 = (resultsArr resp.2).getD 0 .undef := by
      rw [resultsArr]
      cases hres : propOf resp.2 "results" <;> simp [jsIndex, arrOf]
    have hex : (∃ hit ∈ resultsArr resp.2, hitFinite hit = true) ↔
        hitFinite ((resultsArr resp.2).getD 0 .undef) = true := by
      rcases hres2 : resultsArr resp.2 with _ | ⟨h1, rest⟩
      · simp [hitFinite, isFiniteJS, propOf]
      · rcases rest with _ | ⟨h2, rest2⟩
        · simp
        · rw [hres2] at hlen
          simp at hlen
    rw [hhit]
    by_cases hfin : hitFinite ((resultsArr resp.2).getD 0 .undef) = true
    · rw [hitFinite, Bool.and_eq_true] at hfin
      rw [if_pos ⟨hfin.1, hfin.2⟩]
      refine ⟨⟨fun he => ?_, fun hr => ?_⟩, fun g c2 hg => ?_⟩
      · obtain ⟨er, her⟩ := he
        exact Except.noConfusion her
      · rcases hr with hr | hr
        · exact absurd hr hst
        · rw [hitFinite, Bool.and_eq_true] at hex
          exact absurd (hex.mpr ⟨hfin.1, hfin.2⟩) hr
      · simp only [Except.ok.injEq, Prod.mk.injEq] at hg
        rw [← hg.1]
        exact ⟨jsToNumber_isSome_of_isFiniteJS _ hfin.1,
          jsToNumber_isSome_of_isFiniteJS _ hfin.2⟩
    · rw [if_neg (by
        rw [hitFinite, Bool.and_eq_true] at hfin
        intro hc
        exact hfin ⟨hc.1, hc.2⟩)]
      refine ⟨⟨fun _ => Or.inr ?_, fun _ => ⟨.noResults, rfl⟩⟩,
        fun g c2 hg => Except.noConfusion hg⟩
      intro hc
      exact hfin (hex.mp hc)

/-- C7: `geocode` fails exactly when no API credential is configured, or
there is no fresh cache entry for the normalized query and either the
upstream answers with an error status (≥ 400) or its response (at most one
result, as requested with `limit=1`) contains no result with finite
coordinates; in every other case it succeeds with finite coordinates. -/
theorem c7_geocode_failure_contract :
    ∀ (hasKey : Bool) (ttlMs : Int) (cache : List (String × GeoCacheEntry))
      (now : Int) (upstream : String → Nat × JSVal) (addr : String),
      cacheFinite cache →
      (resultsArr (upstream addr).2).length ≤ 1 →
      (((∃ er, geocodeModel hasKey ttlMs cache now upstream addr = .error er) ↔
        (hasKey = false ∨
          (¬cacheFreshHit cache (normalizeAddress addr) now ∧
            (400 ≤ (upstream addr).1 ∨
              ¬∃ hit ∈ resultsArr (upstream addr).2, hitFinite hit = true)))) ∧
      (∀ g c2, geocodeModel hasKey ttlMs cache now upstream addr = .ok (g, c2) →
        g.lat.isSome = true ∧ g.lon.isSome = true)) := by
  intro hasKey ttlMs cache now upstream addr hcf hlen
  cases hasKey with
  | false =>
    constructor
    · simp [geocodeModel]
    · intro g c2 hg
      rw [geocodeModel] at hg
      simp at hg
  | true =>
    have hmodel : geocodeModel true ttlMs cache now upstream addr =
        (match (match cache.lookup (normalizeAddress addr) with
                | some e => if now < e.expiresAt then some e.data else none
                | none => none) with
         | some data => .ok (data, cache)
         | none => geocodeMiss ttlMs cache now (normalizeAddress addr) (upstream addr)) := by
      rw [geocodeModel]
      simp
    rw [hmodel]
    obtain ⟨hmiss1, hmiss2⟩ := geocodeMiss_contract ttlMs cache now
      (normalizeAddress addr) (upstream addr) hlen
    rcases hcl : cache.lookup (normalizeAddress addr) with _ | e
    · dsimp only
      have hfresh : ¬cacheFreshHit cache (normalizeAddress addr) now := by
        rintro ⟨e2, he2, -⟩
        rw [hcl] at he2
        exact Option.noConfusion he2
      refine ⟨?_, hmiss2⟩
      rw [hmiss1]
      constructor
      · intro h
        exact Or.inr ⟨hfresh, h⟩
      · rintro (h | ⟨-, h⟩)
        · exact Bool.noConfusion h
        · exact h
    · dsimp only
      by_cases hexp : now < e.expiresAt
      · rw [if_pos hexp]
        dsimp only
        constructor
        · constructor
          · rintro ⟨er, her⟩
            exact Except.noConfusion her
          · rintro (h | ⟨hno, -⟩)
            · exact Bool.noConfusion h
            · exact absurd ⟨e, hcl, hexp⟩ hno
        · intro g c2 hg
          simp only [Except.ok.injEq, Prod.mk.injEq] at hg
          have hm := hcf (normalizeAddress addr, e) (mem_of_lookup_pair hcl)
          rw [← hg.1]
          exact hm
      · rw [if_neg hexp]
        have hfresh : ¬cacheFreshHit cache (normalizeAddress addr) now := by
          rintro ⟨e2, he2, hx2⟩
          rw [hcl] at he2
          cases he2
          exact hexp hx2
        refine ⟨?_, hmiss2⟩
        rw [hmiss1]
        constructor
        · intro h
          exact Or.inr ⟨hfresh, h⟩
        · rintro (h | ⟨-, h⟩)
          · exact Bool.noConfusion h
          · exact h

/-- C7 witness: with a key, an empty cache and a single finite hit, the
resolver succeeds with finite coordinates and no failure case applies. -/
theorem c7_witness :
    cacheFinite [] ∧ (resultsArr (c7Upstream "x").2).length ≤ 1 ∧
    ∀ g c2, geocodeModel true 1000 [] 0 c7Upstream "x" = .ok (g, c2) →
      g.lat.isSome = true ∧ g.lon.isSome = true :=
  ⟨by simp [cacheFinite], by decide,
    (c7_geocode_failure_contract true 1000 [] 0 c7Upstream "x"
      (by simp [cacheFinite]) (by decide)).2⟩

/-! ## C8: parser totality -/

theorem safeISO_ok_of_tsBenign (dp : String → Option String) (v : JSVal)
    (h : tsBenign v) : ∃ o, safeISO dp v = .ok o := by
  cases v with
  | null => exact ⟨none, rfl⟩
  | undef => exact ⟨none, rfl⟩
  | num o =>
    cases o with
    | none => exact ⟨none, rfl⟩
    | some q =>
      cases hq : jsTruthy (JSVal.num (some q)) with
      | false =>
        refine ⟨none, ?_⟩
        rw [safeISO, hq]
        rfl
      | true =>
        refine ⟨some (isoOfEpochMillis (q.num / (q.den : Int))), ?_⟩
        rw [safeISO, hq]
        show (if q.num.natAbs ≤ 8640000000000000 * q.den then
          (Except.ok (some (isoOfEpochMillis (q.num / (q.den : Int))))
            : Except Unit (Option String)) else .error ()) = _
        rw [if_pos (h q rfl)]
  | str s =>
    cases hq : jsTruthy (JSVal.str s) with
    | false =>
      refine ⟨none, ?_⟩
      rw [safeISO, hq]
      rfl
    | true =>
      refine ⟨dp s, ?_⟩
      rw [safeISO, hq]
      rfl
  | bool b =>
    cases b with
    | false => exact ⟨none, rfl⟩
    | true => exact ⟨dp (jsToString (JSVal.bool true)), rfl⟩
  | arr xs => exact ⟨dp (jsToString (JSVal.arr xs)), rfl⟩
  | obj fs => exact ⟨dp (jsToString (JSVal.obj fs)), rfl⟩

theorem parseJSONVariantRow_ok (dp : String → Option String) (rand : String)
    (r : JSVal) (h : rowBenign r) : ∃ row, parseJSONVariantRow dp rand r = .ok row := by
  obtain ⟨h1, h2, h3⟩ := h
  obtain ⟨o, ho⟩ := safeISO_ok_of_tsBenign dp (pdxTsRawOf r) h3
  cases r with
  | null => exact absurd rfl h1
  | undef => exact absurd rfl h2
  | num q =>
    rw [parseJSONVariantRow]
    rw [ho]
    simp only [Bind.bind, Except.bind]
    exact ⟨_, rfl⟩
    all_goals intro hc
    all_goals exact JSVal.noConfusion hc
  | str s =>
    rw [parseJSONVariantRow]
    rw [ho]
    simp only [Bind.bind, Except.bind]
    exact ⟨_, rfl⟩
    all_goals intro hc
    all_goals exact JSVal.noConfusion hc
  | bool b =>
    rw [parseJSONVariantRow]
    rw [ho]
    simp only [Bind.bind, Except.bind]
    exact ⟨_, rfl⟩
    all_goals intro hc
    all_goals exact JSVal.noConfusion hc
  | arr xs =>
    rw [parseJSONVariantRow]
    rw [ho]
    simp only [Bind.bind, Except.bind]
    exact ⟨_, rfl⟩
    all_goals intro hc
    all_goals exact JSVal.noConfusion hc
  | obj fs =>
    rw [parseJSONVariantRow]
    rw [ho]
    simp only [Bind.bind, Except.bind]
    exact ⟨_, rfl⟩
    all_goals intro hc
    all_goals exact JSVal.noConfusion hc

theorem traverseExcept_ok {α β : Type} (f : Nat → α → Except Unit β)
    (xs : List α) (h : ∀ x ∈ xs, ∀ i, ∃ y, f i x = .ok y) :
    ∀ i, ∃ ys, traverseExcept f i xs = .ok ys := by
  induction xs with
  | nil => intro i; exact ⟨[], rfl⟩
  | cons x rest ih =>
    intro i
    obtain ⟨y, hy⟩ := h x (by simp) i
    obtain ⟨ys, hys⟩ := ih (fun z hz => h z (by simp [hz])) (i + 1)
    refine ⟨y :: ys, ?_⟩
    rw [traverseExcept, hy, hys]
    simp [Bind.bind, Except.bind]

theorem parseKML_nil_of_no_placemark (rands : Nat → String) (kml : JSVal)
    (h : jsTruthy (propOf (kmlDocOf kml) "Placemark") = false) :
    parseKML rands kml = [] := by
  have harr : isArr (propOf (kmlDocOf kml) "Placemark") = false := by
    cases hv : propOf (kmlDocOf kml) "Placemark" <;> simp_all [isArr, jsTruthy]
  simp [parseKML, harr, h]

theorem parseHTMLTable_nil_of_no_tables (dp : String → Option String)
    (rands : Nat → String) (doc : HtmlDoc) (h : doc.tables = []) :
    parseHTMLTable dp rands doc = [] := by
  rw [parseHTMLTable, h]
  rfl

theorem parseJSONVariant_nil_of_unrecognized (dp : String → Option String)
    (rands : Nat → String) (json : JSVal) (h : ¬jsonRecognized json) :
    parseJSONVariant dp rands json = .ok [] := by
  rw [jsonRecognized] at h
  push_neg at h
  obtain ⟨h1, h2, h3⟩ := h
  rw [parseJSONVariant]
  rw [if_neg (by simp [Bool.eq_false_iff.mpr h1]), if_neg
    (by simp [Bool.eq_false_iff.mpr h2]), if_neg (by simp [Bool.eq_false_iff.mpr h3])]
  simp only [Bind.bind, Except.bind]
  rw [traverseExcept]

theorem parseJSONVariant_ok_of_benign (dp : String → Option String)
    (rands : Nat → String) (json : JSVal) (h : jsonBenign json) :
    ∃ rows, parseJSONVariant dp rands json = .ok rows := by
  obtain ⟨hA, hI, hF⟩ := h
  rw [parseJSONVariant]
  by_cases h1 : isArr json = true
  · rw [if_pos h1]
    simp only [Bind.bind, Except.bind]
    exact traverseExcept_ok _ _
      (fun r hr i => parseJSONVariantRow_ok dp (rands i) r (hA h1 r hr)) 0
  · have h1f : isArr json = false := Bool.eq_false_iff.mpr h1
    by_cases h2 : isArr (propOf json "incidents") = true
    · rw [if_neg (by simp [h1f]), if_pos h2]
      simp only [Bind.bind, Except.bind]
      exact traverseExcept_ok _ _
        (fun r hr i => parseJSONVariantRow_ok dp (rands i) r (hI h1f h2 r hr)) 0
    · have h2f : isArr (propOf json "incidents") = false := Bool.eq_false_iff.mpr h2
      by_cases h3 : isArr (propOf json "features") = true
      · rw [if_neg (by simp [h1f]), if_neg (by simp [h2f]), if_pos h3]
        have hfeat : ∀ f ∈ arrOf (propOf json "features"), ∀ i : Nat,
            ∃ y, ((getPropEx f "properties").map
              (fun _ => mergedFeature f) : Except Unit JSVal) = .ok y := by
          intro f hf i
          obtain ⟨hn, hu, _⟩ := hF h1f h2f h3 f hf
          cases f with
          | null => exact absurd rfl hn
          | undef => exact absurd rfl hu
          | num q => exact ⟨mergedFeature (.num q), rfl⟩
          | str s => exact ⟨mergedFeature (.str s), rfl⟩
          | bool b => exact ⟨mergedFeature (.bool b), rfl⟩
          | arr xs => exact ⟨mergedFeature (.arr xs), rfl⟩
          | obj fs => exact ⟨mergedFeature (.obj fs), rfl⟩
        obtain ⟨ms, hms⟩ := traverseExcept_ok _ _ hfeat 0
        rw [hms]
        simp only [Bind.bind, Except.bind]
        refine traverseExcept_ok _ _ (fun m hm i => ?_) 0
        obtain ⟨j, f, hfmem, hjf⟩ := traverseExcept_mem _ _ 0 ms hms m hm
        have hm_eq : m = mergedFeature f := by
          cases hg : getPropEx f "properties" with
          | error e =>
            rw [hg] at hjf
            simp only [Except.map] at hjf
            exact Except.noConfusion hjf
          | ok v =>
            rw [hg] at hjf
            simp only [Except.map, Except.ok.injEq] at hjf
            exact hjf.symm
        obtain ⟨hn, hu, hts⟩ := hF h1f h2f h3 f hfmem
        refine parseJSONVariantRow_ok dp (rands i) m ⟨?_, ?_, ?_⟩
        · rw [hm_eq, mergedFeature]
          exact fun hc => JSVal.noConfusion hc
        · rw [hm_eq, mergedFeature]
          exact fun hc => JSVal.noConfusion hc
        · rw [hm_eq]
          exact hts
      · have h3f : isArr (propOf json "features") = false := Bool.eq_false_iff.mpr h3
        rw [if_neg (by simp [h1f]), if_neg (by simp [h2f]), if_neg (by simp [h3f])]
        simp only [Bind.bind, Except.bind]
        rw [traverseExcept]
        exact ⟨[], rfl⟩

/-- C8: amended parser totality.  The KML and HTML-table parsers are total
Lean functions and return no rows when the parsed document has no
`Placemark` (resp. no `<table>`); the JSON-variant parser returns `.ok []`
on any unrecognized shape and succeeds on every recognized shape whose rows
are non-nullish with in-`Date`-range numeric timestamps.  (The unamended
claim fails: `parseJSONVariantRow` throws on a `null` row, and `safeISO`
throws on a numeric timestamp outside the `Date` range, as the separate
counterexample shows.) -/
theorem c8_parsers_totality_amended :
    (∀ (rands : Nat → String) (kml : JSVal),
      jsTruthy (propOf (kmlDocOf kml) "Placemark") = false →
        parseKML rands kml = []) ∧
    (∀ (dp : String → Option String) (rands : Nat → String) (doc : HtmlDoc),
      doc.tables = [] → parseHTMLTable dp rands doc = []) ∧
    (∀ (dp : String → Option String) (rands : Nat → String) (json : JSVal),
      ¬jsonRecognized json → parseJSONVariant dp rands json = .ok []) ∧
    (∀ (dp : String → Option String) (rands : Nat → String) (json : JSVal),
      jsonBenign json → ∃ rows, parseJSONVariant dp rands json = .ok rows) :=
  ⟨parseKML_nil_of_no_placemark, parseHTMLTable_nil_of_no_tables,
   parseJSONVariant_nil_of_unrecognized, parseJSONVariant_ok_of_benign⟩

theorem c8_witness :
    parseKML defaultRands (JSVal.obj []) = [] ∧
    parseHTMLTable noDateParse defaultRands { tables := [] } = [] ∧
    parseJSONVariant noDateParse defaultRands (JSVal.str "x") = .ok [] ∧
    ∃ rows, parseJSONVariant noDateParse defaultRands
      (JSVal.arr [JSVal.obj [("id", JSVal.str "1")]]) = .ok rows :=
  ⟨c8_parsers_totality_amended.1 defaultRands (JSVal.obj []) rfl,
   c8_parsers_totality_amended.2.1 noDateParse defaultRands { tables := [] } rfl,
   c8_parsers_totality_amended.2.2.1 noDateParse defaultRands (JSVal.str "x")
     (by rw [jsonRecognized]; decide),
   c8_parsers_totality_amended.2.2.2 noDateParse defaultRands
     (JSVal.arr [JSVal.obj [("id", JSVal.str "1")]])
     ⟨fun _ r hr => by
        simp only [arrOf, List.mem_singleton] at hr
        subst hr
        exact ⟨fun hc => JSVal.noConfusion hc, fun hc => JSVal.noConfusion hc,
          fun q hq => JSVal.noConfusion
            (show JSVal.undef = JSVal.num (some q) from hq)⟩,
      fun hfalse => absurd hfalse (by decide),
      fun hfalse => absurd hfalse (by decide)⟩⟩
